import Mathlib

/-!
A shallow embedding, in Lean 4, of the signal-detection and scoring engine of
the PhishGuard repository (`backend/ml/heuristic_analyzer.py`,
`backend/ml/phone_analyzer.py`, `backend/ml/page_analyzer.py`), together with
theorems checking the natural-language specification against it.

Modelling conventions:
* Python `float` values are modelled as exact rationals (`ℚ`); the program only
  manipulates small decimal constants and its spec speaks in exact decimals.
* Python strings are Lean `String`s; Unicode-dependent primitives
  (`str.lower`, `\d`, `\s`, …) are modelled on the character ranges this code
  base actually uses (ASCII plus the Cyrillic/Kazakh ranges named in the
  source).
* Python exceptions are modelled with `Except PyErr`.
* Free-text fields of issue dictionaries (`detail`, `official_domains`) carry
  no logic and are not modelled; the `type`, `severity`, `brand`, `distance`
  and `similar_to` keys are.
-/

set_option maxRecDepth 100000

namespace PhishGuard

/-- Model of Python `str.lower` on one character: ASCII `A`–`Z`, the Cyrillic
block `А`–`Я` with `Ё`, the Kazakh/Ukrainian letters used by the source
(`І Ғ Ү Ұ Қ Ө Ң`) and `Ä`.  Other characters are returned unchanged. -/
def pyLowerChar (c : Char) : Char :=
  if 'A' ≤ c ∧ c ≤ 'Z' then Char.ofNat (c.toNat + 32)
  else if 0x410 ≤ c.toNat ∧ c.toNat ≤ 0x42F then Char.ofNat (c.toNat + 0x20)
  else if c = 'Ё' then 'ё'
  else if c = 'І' then 'і'
  else if c = 'Ғ' then 'ғ'
  else if c = 'Ү' then 'ү'
  else if c = 'Ұ' then 'ұ'
  else if c = 'Қ' then 'қ'
  else if c = 'Ө' then 'ө'
  else if c = 'Ң' then 'ң'
  else if c = 'Ä' then 'ä'
  else c

/-- Python `s.lower()`. -/
def pyLower (s : String) : String :=
  String.mk (s.toList.map pyLowerChar)

/-- Python `needle in haystack` for strings. -/
def strIn (needle hay : String) : Prop :=
  needle.toList.IsInfix hay.toList

instance (n h : String) : Decidable (strIn n h) := by
  unfold strIn; infer_instance

/-- Python `s.startswith(t)`. -/
def strStarts (s t : String) : Prop :=
  t.toList.IsPrefix s.toList

instance (s t : String) : Decidable (strStarts s t) := by
  unfold strStarts; infer_instance

/-- Python `s.endswith(t)`. -/
def strEnds (s t : String) : Prop :=
  t.toList.IsSuffix s.toList

instance (s t : String) : Decidable (strEnds s t) := by
  unfold strEnds; infer_instance

/-- Python `c in s` for a single character. -/
def charIn (c : Char) (s : String) : Prop :=
  c ∈ s.toList

instance (c : Char) (s : String) : Decidable (charIn c s) := by
  unfold charIn; infer_instance

/-- Python `s.split(sep)` for a one-character separator, on character lists. -/
def splitOnCharList (sep : Char) : List Char → List (List Char)
  | [] => [[]]
  | a :: as =>
      let r := splitOnCharList sep as
      if a = sep then [] :: r else (a :: r.headD []) :: r.tail

/-- Python `s.split(sep)` for a one-character separator. -/
def pySplit (s : String) (sep : Char) : List String :=
  (splitOnCharList sep s.toList).map String.mk

/-- `'.'.join(l)`. -/
def joinDots : List String → String
  | [] => ""
  | [s] => s
  | s :: rest => s ++ "." ++ joinDots rest

/-- Python `l[-n:]`. -/
def lastN {α : Type} (n : Nat) (l : List α) : List α :=
  l.drop (l.length - n)

/-- The whitespace stripped by Python `str.strip()` (ASCII model). -/
def pyIsSpace (c : Char) : Bool :=
  c == ' ' || c == '\t' || c == '\n' || c == '\r' || c == '\x0b' || c == '\x0c'

/-- Python `s.strip()` (ASCII whitespace model). -/
def pyStrip (s : String) : String :=
  String.mk (((s.toList.dropWhile pyIsSpace).reverse.dropWhile pyIsSpace).reverse)

/-- Exceptions of the modelled Python code. -/
inductive PyErr where
  | valueError
  | nameError
deriving DecidableEq

/-- The components of `urllib.parse.urlparse` used by the analyzers. -/
structure ParsedUrl where
  scheme : String
  netloc : String
  path : String
  query : String
  fragment : String
deriving DecidableEq

/-- Characters allowed in a URL scheme by `urllib.parse`. -/
def schemeCharOK (c : Char) : Bool :=
  c.isAlpha || c.isDigit || c == '+' || c == '-' || c == '.'

/-- Scheme extraction of `urllib.parse.urlsplit`: a scheme is recognised when
the text before the first `:` is nonempty, begins with an ASCII letter and
consists of scheme characters only; it is lowercased. -/
def splitScheme (l : List Char) : String × List Char :=
  let pre := l.takeWhile (fun c => c != ':')
  if ':' ∈ l ∧ pre ≠ [] ∧ (l.headD ' ').isAlpha ∧ pre.all schemeCharOK
  then (String.mk (pre.map pyLowerChar), l.drop (pre.length + 1))
  else ("", l)

/-- Netloc extraction of `urlsplit`: after a leading `//`, the netloc runs up
to the first `/`, `?` or `#`; mismatched square brackets raise
`ValueError("Invalid IPv6 URL")`. -/
def netlocSplit (l : List Char) : Except PyErr (List Char × List Char) :=
  match l with
  | '/' :: '/' :: rest =>
      let nl := rest.takeWhile (fun c => !(c == '/' || c == '?' || c == '#'))
      if ('[' ∈ nl ∧ ']' ∉ nl) ∨ (']' ∈ nl ∧ '[' ∉ nl) then .error .valueError
      else .ok (nl, rest.drop nl.length)
  | _ => .ok ([], l)

/-- Python `s.split(c, 1)`, assuming `c ∈ s`. -/
def splitOnceAt (c : Char) (l : List Char) : List Char × List Char :=
  let pre := l.takeWhile (fun a => a != c)
  (pre, l.drop (pre.length + 1))

/-- `urllib.parse._splitparams`, restricted to its first component: drops a
`;`-parameter part from the last path segment. -/
def splitparams (p : List Char) : List Char :=
  if '/' ∈ p then
    let lastSeg := (p.reverse.takeWhile (fun a => a != '/')).reverse
    if ';' ∈ lastSeg then
      p.take (p.length - lastSeg.length) ++ lastSeg.takeWhile (fun a => a != ';')
    else p
  else p.takeWhile (fun a => a != ';')

/-- Schemes for which `urlparse` splits `;`-parameters (`uses_params`). -/
def USES_PARAMS : List String :=
  ["", "ftp", "hdl", "prospero", "http", "imap", "https", "shttp", "rtsp",
   "rtspu", "sip", "sips", "mms", "sftp", "tel"]

/-- Model of `urllib.parse.urlparse` (CPython ≥ 3.10): strip C0 controls and
spaces at both ends, remove tab/CR/LF everywhere, then split scheme, netloc
(with the IPv6 bracket validation that can raise `ValueError`), fragment,
query, and finally the `;`-parameters of the last path segment. -/
def urlparse (url : String) : Except PyErr ParsedUrl := do
  let l0 := ((url.toList.dropWhile (fun c => c.toNat ≤ 0x20)).reverse.dropWhile
      (fun c => c.toNat ≤ 0x20)).reverse
  let l := l0.filter (fun c => !(c == '\t' || c == '\r' || c == '\n'))
  let (scheme, rest) := splitScheme l
  let (netloc, rest) ← netlocSplit rest
  let (rest, fragment) := if '#' ∈ rest then splitOnceAt '#' rest else (rest, [])
  let (rest, query) := if '?' ∈ rest then splitOnceAt '?' rest else (rest, [])
  let path := if scheme ∈ USES_PARAMS ∧ ';' ∈ rest then splitparams rest else rest
  return ⟨scheme, String.mk netloc, String.mk path, String.mk query, String.mk fragment⟩

/-! ### Brand registry and keyword tables (`heuristic_analyzer.py`, lines 19–115) -/

/-- `BRAND_DOMAINS`: brand name → official domains, in source order. -/
def BRAND_DOMAINS : List (String × List String) := [
  ("google", ["google.com", "google.kz", "google.ru", "googleapis.com", "gstatic.com"]),
  ("apple", ["apple.com", "icloud.com", "appleid.apple.com"]),
  ("microsoft", ["microsoft.com", "live.com", "outlook.com", "office.com", "office365.com", "microsoftonline.com"]),
  ("amazon", ["amazon.com", "amazon.co.uk", "amazon.de", "aws.amazon.com"]),
  ("facebook", ["facebook.com", "fb.com", "messenger.com", "meta.com"]),
  ("instagram", ["instagram.com"]),
  ("twitter", ["twitter.com", "x.com"]),
  ("whatsapp", ["whatsapp.com", "web.whatsapp.com"]),
  ("telegram", ["telegram.org", "web.telegram.org", "t.me"]),
  ("netflix", ["netflix.com"]),
  ("paypal", ["paypal.com", "paypal.me"]),
  ("ebay", ["ebay.com"]),
  ("linkedin", ["linkedin.com"]),
  ("youtube", ["youtube.com", "youtu.be"]),
  ("tiktok", ["tiktok.com"]),
  ("discord", ["discord.com", "discord.gg", "discordapp.com"]),
  ("zoom", ["zoom.us", "zoom.com"]),
  ("spotify", ["spotify.com"]),
  ("github", ["github.com", "github.io"]),
  ("dropbox", ["dropbox.com"]),
  ("reddit", ["reddit.com"]),
  ("kaspi", ["kaspi.kz", "kaspi.com"]),
  ("halyk", ["halykbank.kz", "homebank.kz"]),
  ("halykbank", ["halykbank.kz", "homebank.kz"]),
  ("homebank", ["homebank.kz"]),
  ("egov", ["egov.kz"]),
  ("forte", ["forte.kz", "fortebank.com"]),
  ("fortebank", ["forte.kz", "fortebank.com"]),
  ("jusan", ["jysanbank.kz", "jusan.kz"]),
  ("bereke", ["berekebank.kz"]),
  ("freedom", ["ffin.kz", "freedomfinance.kz", "freedom24.com"]),
  ("kolesa", ["kolesa.kz"]),
  ("krisha", ["krisha.kz"]),
  ("olx", ["olx.kz"]),
  ("sberbank", ["sberbank.ru", "online.sberbank.ru", "sber.ru"]),
  ("sber", ["sberbank.ru", "sber.ru"]),
  ("tinkoff", ["tinkoff.ru", "tinkoff.com"]),
  ("vtb", ["vtb.ru"]),
  ("yandex", ["yandex.ru", "yandex.kz", "ya.ru"]),
  ("mail", ["mail.ru"]),
  ("vk", ["vk.com", "vk.ru"]),
  ("ozon", ["ozon.ru"]),
  ("wildberries", ["wildberries.ru", "wb.ru"]),
  ("avito", ["avito.ru"]),
  ("canva", ["canva.com"]),
  ("figma", ["figma.com"]),
  ("trello", ["trello.com"]),
  ("notion", ["notion.so", "notion.site"])]

/-- `HIGHLY_SUSPICIOUS_TLDS`. -/
def HIGHLY_SUSPICIOUS_TLDS : List String := [
  ".tk", ".ml", ".ga", ".cf", ".gq",
  ".xyz", ".top", ".win", ".bid", ".stream", ".racing",
  ".download", ".loan", ".date", ".faith", ".review",
  ".science", ".party", ".click", ".link", ".work", ".buzz",
  ".rest", ".monster", ".surf", ".icu", ".cam", ".quest",
  ".cfd", ".sbs", ".autos", ".boats"]

/-- `CASINO_KEYWORDS`. -/
def CASINO_KEYWORDS : List String := [
  "casino", "vulkan", "vulcan", "1xbet", "betting", "stavki", "azino",
  "joycasino", "sloty", "slots", "spin", "jackpot", "pinup", "1win",
  "melbet", "parimatch", "olimpbet", "fonbet", "казино", "вулкан",
  "ставка", "ставки", "рулетка", "автоматы", "азино", "win", "lotto",
  "lottery", "лотерея", "розыгрыш"]

/-! ### Domain normalisation and edit distance -/

/-- `_normalize_domain`: lowercase, strip, drop a leading `www.`, drop a port. -/
def _normalize_domain (domain : String) : String :=
  let d := pyStrip (pyLower domain)
  let d := if strStarts d "www." then String.mk (d.toList.drop 4) else d
  if charIn ':' d then (pySplit d ':').headD "" else d

/-- `_extract_base_domain`: last two labels, or three for compound
country-code second-level domains. -/
def _extract_base_domain (domain : String) : String :=
  let parts := pySplit domain '.'
  if parts.length ≤ 2 then domain
  else
    let rejoined := "." ++ joinDots (lastN 2 parts)
    if ∃ cs ∈ [".co", ".com", ".org", ".net", ".gov", ".edu"], strStarts rejoined cs
    then (if 3 ≤ parts.length then joinDots (lastN 3 parts) else domain)
    else joinDots (lastN 2 parts)

/-- One cell-by-cell pass of the row dynamic programme of
`_levenshtein_distance`: `last` is the previously computed cell of the current
row, the first list the remaining column characters, the second the tail of
the previous row aligned with them. -/
def levInner (c1 : Char) : Nat → List Char → List Nat → List Nat
  | _, [], _ => []
  | _, _ :: _, [] => []
  | _, _ :: _, [_] => []
  | last, c2 :: cs, pj :: pj1 :: rest =>
      min (pj1 + 1) (min (last + 1) (pj + (if c1 = c2 then 0 else 1))) ::
        levInner c1 (min (pj1 + 1) (min (last + 1) (pj + (if c1 = c2 then 0 else 1)))) cs
          (pj1 :: rest)

/-- The row loop of `_levenshtein_distance`. -/
def levRows (s2 : List Char) : List Char → Nat → List Nat → List Nat
  | [], _, prev => prev
  | c1 :: cs, i, prev => levRows s2 cs (i + 1) ((i + 1) :: levInner c1 (i + 1) s2 prev)

/-- Python `row[-1]` (with a default for the impossible empty case). -/
def lastElemD : List Nat → Nat → Nat
  | [], d => d
  | [a], _ => a
  | _ :: b :: rest, d => lastElemD (b :: rest) d

/-- `_levenshtein_distance` after the length swap (`s1` is the longer). -/
def levBase (s1 s2 : List Char) : Nat :=
  if s2.length = 0 then s1.length
  else lastElemD (levRows s2 s1 0 (List.range (s2.length + 1))) 0

/-- `_levenshtein_distance` of `heuristic_analyzer.py` (lines 118–134). -/
def _levenshtein_distance (s1 s2 : String) : Nat :=
  if s1.length < s2.length then levBase s2.toList s1.toList
  else levBase s1.toList s2.toList

/-! ### Issues and the URL detectors -/

/-- The modelled keys of the issue dictionaries; unused keys default to
neutral values. -/
structure Issue where
  type : String
  severity : ℚ
  brand : String := ""
  distance : Nat := 0
  similar_to : String := ""
deriving DecidableEq

/-- `[issue]` when the guard of an `issues.append` holds, else `[]`. -/
def issueIf (c : Prop) [Decidable c] (i : Issue) : List Issue :=
  if c then [i] else []

/-- Loop body of `check_brand_impersonation` for one registry entry. -/
def brandLoopBody (brand : String) (official_domains : List String)
    (domain_lower base_domain path_lower : String) : List Issue :=
  if base_domain ∈ official_domains ∨ domain_lower ∈ official_domains then []
  else
    issueIf (strIn brand domain_lower)
      { type := "brand_impersonation", severity := 0.9, brand := brand } ++
    (let domain_parts := pySplit domain_lower '.'
     if 2 < domain_parts.length then
       ((domain_parts.take (domain_parts.length - 2)).filter
          (fun part => decide (strIn brand part ∧ 4 ≤ brand.length))).map
         (fun _ => { type := "brand_in_subdomain", severity := 0.85, brand := brand })
     else []) ++
    issueIf (strIn brand path_lower ∧ 4 ≤ brand.length ∧ base_domain ∉ official_domains)
      { type := "brand_in_path", severity := 0.7, brand := brand }

/-- `check_brand_impersonation` (lines 161–209).  `urlparse(url_lower).path`
is recomputed inside every iteration of the brand loop; a `ValueError` raised
by it escapes on the first iteration (the registry is nonempty), discarding
every issue collected so far. -/
def check_brand_impersonation (url domain : String) : Except PyErr (List Issue) :=
  let domain_lower := _normalize_domain domain
  let base_domain := _extract_base_domain domain_lower
  let url_lower := pyLower url
  match urlparse url_lower with
  | .error e => .error e
  | .ok pu =>
      .ok (BRAND_DOMAINS.flatMap fun p =>
        brandLoopBody p.1 p.2 domain_lower base_domain pu.path)

/-- The issue dictionary built for a typosquat hit. -/
def mkTypoIssue (brand domain_name official : String) (distance : Nat) : Issue :=
  { type := "typosquatting", severity := if distance = 1 then 0.95 else 0.8,
    brand := brand, distance := distance, similar_to := official }

/-- `best_distance` of the running best match (`999` when none yet). -/
def bestDist : Option Issue → Nat
  | none => 999
  | some i => i.distance

/-- `abs(a - b)` on lengths. -/
def intDist (a b : Nat) : Nat := max a b - min a b

/-- A canonical domain's first label, `official.split('.')[0]`. -/
def canonLabel (official : String) : String :=
  (pySplit official '.').headD ""

/-- Inner loop of `check_typosquatting` over one brand's official domains,
keeping only the strictly closest qualifying match. -/
def typoLoop (domain_name brand : String) : List String → Option Issue → Option Issue
  | [], best => best
  | official :: rest, best =>
      let official_name := canonLabel official
      if 3 < intDist domain_name.length official_name.length then
        typoLoop domain_name brand rest best
      else
        let distance := _levenshtein_distance domain_name official_name
        if 0 < distance ∧ distance ≤ 2 ∧ 4 ≤ official_name.length ∧ distance < bestDist best
        then typoLoop domain_name brand rest (some (mkTypoIssue brand domain_name official distance))
        else typoLoop domain_name brand rest best

/-- `check_typosquatting` (lines 212–255). -/
def check_typosquatting (domain : String) : List Issue :=
  let domain_lower := _normalize_domain domain
  let base_domain := _extract_base_domain domain_lower
  let domain_name := (pySplit base_domain '.').headD ""
  BRAND_DOMAINS.flatMap fun p =>
    if base_domain ∈ p.2 then []
    else (typoLoop domain_name p.1 p.2 none).toList

/-- `check_casino_patterns` (lines 258–284). -/
def check_casino_patterns (url domain : String) : List Issue :=
  let domain_lower := _normalize_domain domain
  let url_lower := pyLower url
  let keyword_matches := CASINO_KEYWORDS.filter (fun kw => decide (strIn kw url_lower))
  let domain_matches := CASINO_KEYWORDS.filter (fun kw => decide (strIn kw domain_lower))
  if domain_matches ≠ [] then [{ type := "casino_gambling", severity := 0.85 }]
  else if keyword_matches ≠ [] then [{ type := "casino_gambling", severity := 0.6 }]
  else []

/-- `re.match(r'^(\d{1,3}\.){3}\d{1,3}$', s)`. -/
def isIPv4 (s : String) : Prop :=
  let parts := pySplit s '.'
  parts.length = 4 ∧ ∀ p ∈ parts, 1 ≤ p.length ∧ p.length ≤ 3 ∧ p.toList.all Char.isDigit

instance (s : String) : Decidable (isIPv4 s) := by
  unfold isIPv4; infer_instance

/-- `[0-9a-fA-F]`. -/
def isHexDigitChar (c : Char) : Bool :=
  c.isDigit || ('a' ≤ c ∧ c ≤ 'f') || ('A' ≤ c ∧ c ≤ 'F')

/-- `len(re.findall(r'%[0-9a-fA-F]{2}', url))`: leftmost non-overlapping
scan. -/
def countHexEnc : List Char → Nat
  | '%' :: a :: b :: rest =>
      if isHexDigitChar a ∧ isHexDigitChar b then 1 + countHexEnc rest
      else countHexEnc (a :: b :: rest)
  | _ :: rest => countHexEnc rest
  | [] => 0

/-- `\w`. -/
def isWordChar (c : Char) : Bool :=
  c.isAlpha || c.isDigit || c == '_'

/-- `re.search(r'\.(\w{2,4})\.(\w{2,4})$', path)`, returning the two
extension groups when the pattern matches. -/
def doubleExt (path : String) : Option (String × String) :=
  let r := path.toList.reverse
  let t := r.takeWhile isWordChar
  match r.drop t.length with
  | '.' :: r2 =>
      let u := r2.takeWhile isWordChar
      (match r2.drop u.length with
       | '.' :: _ =>
           if 2 ≤ t.length ∧ t.length ≤ 4 ∧ 2 ≤ u.length ∧ u.length ≤ 4
           then some (String.mk u.reverse, String.mk t.reverse)
           else none
       | _ => none)
  | _ => none

/-- Digit-string value, `int(...)` on a nonempty digit run. -/
def natOfDigits (l : List Char) : Nat :=
  l.foldl (fun acc c => acc * 10 + (c.toNat - 48)) 0

/-- `re.search(r':(\d+)$', domain)`: the trailing port number, when present. -/
def portOf (domain : String) : Option Nat :=
  let r := domain.toList.reverse
  let ds := r.takeWhile Char.isDigit
  if ds ≠ [] ∧ (r.drop ds.length).headD ' ' = ':' then some (natOfDigits ds.reverse)
  else none

/-- `[a-zA-Z]`. -/
def latinLetter (c : Char) : Prop :=
  ('a' ≤ c ∧ c ≤ 'z') ∨ ('A' ≤ c ∧ c ≤ 'Z')

instance (c : Char) : Decidable (latinLetter c) := by
  unfold latinLetter; infer_instance

/-- The character class `[а-яА-ЯёЁіІғҒүҮұҰқҚөӨңНäÄ]` of the homograph
check. -/
def cyrClass (c : Char) : Prop :=
  (0x430 ≤ c.toNat ∧ c.toNat ≤ 0x44F) ∨ (0x410 ≤ c.toNat ∧ c.toNat ≤ 0x42F) ∨
  c ∈ ['ё', 'Ё', 'і', 'І', 'ғ', 'Ғ', 'ү', 'Ү', 'ұ', 'Ұ', 'қ', 'Қ', 'ө', 'Ө', 'ң', 'Н', 'ä', 'Ä']

instance (c : Char) : Decidable (cyrClass c) := by
  unfold cyrClass; infer_instance

/-- `trusted_long_platforms` (line 307). -/
def trusted_long_platforms : List String :=
  ["canva.com", "figma.com", "google.com", "microsoft.com", "sharepoint.com"]

/-- `phishing_path_keywords` (lines 350–356). -/
def phishing_path_keywords : List String := [
  "login", "signin", "sign-in", "log-in", "verify", "confirm",
  "update", "secure", "account", "banking", "password", "credential",
  "authenticate", "validate", "authorize", "restore", "recover",
  "suspend", "restrict", "unlock", "reactivate", "identity",
  "webscr", "cmd=login", "wp-admin", "admin/login"]

/-- `shorteners` (lines 431–435). -/
def shorteners : List String := [
  "bit.ly", "tinyurl.com", "goo.gl", "t.co", "ow.ly", "is.gd",
  "buff.ly", "rebrand.ly", "cutt.ly", "shorturl.at", "rb.gy",
  "tinycc.com", "short.io", "v.gd", "clck.ru", "qps.ru"]

/-- The words of `redirect_patterns` (lines 464–467); each is searched
followed by `=` or `?`. -/
def redirect_words : List String :=
  ["redirect", "url", "next", "goto", "return", "dest", "link", "target"]

/-- `dangerous_exts` (line 422). -/
def dangerous_exts : List String :=
  ["exe", "bat", "cmd", "scr", "js", "vbs", "ps1", "msi", "com"]

/-- `check_url_patterns` (lines 287–485): the eighteen structural URL checks,
in source order. -/
def check_url_patterns (url domain : String) (parsed : ParsedUrl) : List Issue :=
  let domain_lower := _normalize_domain domain
  let path := parsed.path
  let url_lower := pyLower url
  issueIf (isIPv4 ((pySplit domain_lower ':').headD ""))
    { type := "ip_address_domain", severity := 0.85 } ++
  issueIf (150 < url.length ∧ ¬ ∃ p ∈ trusted_long_platforms, strIn p domain_lower)
    { type := "very_long_url", severity := 0.4 } ++
  issueIf (3 ≤ (pySplit domain_lower '.').length - 2)
    { type := "excessive_subdomains", severity := 0.7 } ++
  issueIf (charIn '@' url)
    { type := "at_symbol_redirect", severity := 0.9 } ++
  issueIf (5 < countHexEnc url.toList)
    { type := "excessive_encoding", severity := 0.6 } ++
  issueIf (¬ strStarts url_lower "https://")
    { type := "no_https", severity := 0.5 } ++
  (let cnt := (phishing_path_keywords.filter (fun kw => decide (strIn kw (pyLower path)))).length
   if 2 ≤ cnt then [{ type := "suspicious_path", severity := 0.7 }]
   else if cnt = 1 then [{ type := "suspicious_path", severity := 0.35 }]
   else []) ++
  issueIf (∃ tld ∈ HIGHLY_SUSPICIOUS_TLDS, strEnds domain_lower tld)
    { type := "suspicious_tld", severity := 0.65 } ++
  (let domain_name := if charIn '.' domain_lower then (pySplit domain_lower '.').headD "" else domain_lower
   issueIf (2 ≤ (domain_name.toList.filter (fun c => c == '-')).length)
     { type := "excessive_hyphens", severity := 0.6 }) ++
  issueIf ((∃ c ∈ domain_lower.toList, latinLetter c) ∧ ∃ c ∈ domain.toList, cyrClass c)
    { type := "mixed_scripts", severity := 0.95 } ++
  issueIf (strIn "data:" url_lower)
    { type := "data_uri", severity := 0.95 } ++
  issueIf (strIn "javascript:" url_lower)
    { type := "javascript_uri", severity := 1 } ++
  (match doubleExt path with
   | some (_, ext2) =>
       issueIf (pyLower ext2 ∈ dangerous_exts) { type := "double_extension", severity := 0.95 }
   | none => []) ++
  issueIf (∃ s ∈ shorteners, strIn s domain_lower)
    { type := "url_shortener", severity := 0.4 } ++
  issueIf (strIn "xn--" domain_lower)
    { type := "punycode_domain", severity := 0.8 } ++
  (if charIn ':' domain then
     match portOf domain with
     | some port => issueIf (port ∉ [80, 443]) { type := "unusual_port", severity := 0.5 }
     | none => []
   else []) ++
  issueIf (∃ w ∈ redirect_words, strIn (w ++ "=") url_lower ∨ strIn (w ++ "?") url_lower)
    { type := "redirect_parameter", severity := 0.6 } ++
  issueIf (4 ≤ (domain_lower.toList.filter (fun c => c == '.')).length)
    { type := "many_dots", severity := 0.5 }

/-! ### Aggregation, rounding, verdicts -/

/-- Lines 523–545 of `heuristic_analyzer.py`: aggregation of an issue set into
the heuristic score. -/
def heuristic_score (all_issues : List Issue) : ℚ :=
  if all_issues = [] then 0.05
  else
    let severities := (all_issues.map Issue.severity).insertionSort (· ≥ ·)
    let top_severities := severities.take 5
    let max_severity := top_severities.headD 0
    let issue_bonus := min 0.15 ((all_issues.length : ℚ) * 0.03)
    let score :=
      if 1 < top_severities.length then
        max_severity * 0.6 + (top_severities.sum / (top_severities.length : ℚ)) * 0.25 + issue_bonus
      else max_severity * 0.85 + issue_bonus
    min 1 (max 0 score)

/-- Python `round` to an integer on exact rationals (ties go to the even
integer, as in Python 3). -/
def pyRoundInt (x : ℚ) : ℤ :=
  let f := ⌊x⌋
  if x - f < 1/2 then f
  else if 1/2 < x - f then f + 1
  else if 2 ∣ f then f else f + 1

/-- Python `round(x, 4)` on exact rationals. -/
def round4 (x : ℚ) : ℚ :=
  (pyRoundInt (x * 10000) : ℚ) / 10000

/-- `analyze_url_heuristic` (lines 488–570).  The returned triple is
`(score, verdict, issues)`; the free-text parts of the `details` dictionary
are dropped.  The `ValueError` that `check_brand_impersonation` can raise is
not caught (only the initial `urlparse` sits inside a `try`). -/
def analyze_url_heuristic (url : String) : Except PyErr (ℚ × String × List Issue) :=
  let url_to_parse :=
    if strStarts url "http://" ∨ strStarts url "https://" ∨ strStarts url "ftp://"
    then url else "http://" ++ url
  match urlparse url_to_parse with
  | .error _ =>
      .ok (1, "phishing", [{ type := "unparseable", severity := 1 }])
  | .ok parsed => do
      let domain0 := if parsed.netloc ≠ "" then parsed.netloc else (pySplit parsed.path '/').headD ""
      let domain := pyLower domain0
      let brandIssues ← check_brand_impersonation url domain
      let all_issues := brandIssues ++ check_typosquatting domain ++
        check_url_patterns url domain parsed ++ check_casino_patterns url domain
      let score := heuristic_score all_issues
      let verdict := if score < 0.3 then "safe" else if score < 0.65 then "suspicious" else "phishing"
      return (round4 score, verdict, all_issues)

/-- `combine_scores` (lines 573–613). -/
def combine_scores (ml_score heuristic_score : ℚ) (ml_verdict heuristic_verdict : String)
    (heuristic_issues : List Issue) : ℚ × String :=
  let has_critical := ∃ i ∈ heuristic_issues, 0.85 ≤ i.severity
  let final_score :=
    if has_critical then heuristic_score * 0.7 + ml_score * 0.3
    else if 0.6 < heuristic_score ∧ 0.6 < ml_score then
      max ml_score heuristic_score * 0.9 + min ml_score heuristic_score * 0.1
    else if 0.5 < heuristic_score ∨ 0.5 < ml_score then
      max ml_score heuristic_score * 0.6 + min ml_score heuristic_score * 0.4
    else ml_score * 0.5 + heuristic_score * 0.5
  let final_score := min 1 (max 0 (round4 final_score))
  (final_score,
   if final_score < 0.3 then "safe" else if final_score < 0.65 then "suspicious" else "phishing")

/-! ### Phone analyzer (`phone_analyzer.py`) -/

/-- `clean_phone_number`: remove `[\s\-\(\)]`. -/
def clean_phone_number (phone : String) : String :=
  String.mk (phone.toList.filter (fun c => !(pyIsSpace c || c == '-' || c == '(' || c == ')')))

/-- The country codes of `HIGH_RISK_PREFIXES` (the mapped country names only
feed free-text details). -/
def HIGH_RISK_CODES : List String :=
  ["+234", "+91", "+44", "+371", "+372", "+380"]

/-- Lines 53–59 of `analyze_phone`: normalise the leading country code. -/
def phoneNormalize (cleaned digits : String) : String :=
  if ¬ strStarts cleaned "+" ∧ strStarts digits "7" then "+" ++ cleaned
  else if ¬ strStarts cleaned "+" ∧ strStarts digits "8" then "+7" ++ String.mk (digits.toList.drop 1)
  else if ¬ strStarts cleaned "+" then "+" ++ cleaned
  else cleaned

/-- Lines 61–103 of `analyze_phone`: the additive heuristic (baseline `0.1`,
`+0.5` bad length, `+0.6` high-risk country code, `+0.3` non-CIS foreign
number, `+0.4` spoofed bank number) and the issue list. -/
def phone_heuristic (phone : String) : ℚ × List Issue :=
  let cleaned0 := clean_phone_number phone
  let digits := String.mk (cleaned0.toList.filter Char.isDigit)
  let cleaned := phoneNormalize cleaned0 digits
  let lenBad := digits.length < 10 ∨ 15 < digits.length
  let riskCc := HIGH_RISK_CODES.find? (fun p => decide (strStarts cleaned p))
  let isCis := strStarts cleaned "+7" ∨ strStarts cleaned "+996" ∨ strStarts cleaned "+998"
  let foreign := ¬ isCis ∧ riskCc = none
  let spoofed := strStarts cleaned "+7800" ∨ strStarts cleaned "+7495" ∨ strStarts cleaned "+7499"
  let score := (0.1 : ℚ) + (if lenBad then 0.5 else 0) + (if riskCc.isSome then 0.6 else 0) +
    (if foreign then 0.3 else 0) + (if spoofed then 0.4 else 0)
  let issues :=
    issueIf lenBad { type := "invalid_length", severity := 0.8 } ++
    issueIf riskCc.isSome { type := "high_risk_country", severity := 0.7 } ++
    issueIf foreign { type := "foreign_number", severity := 0.4 } ++
    issueIf spoofed { type := "spoofed_bank_number", severity := 0.5 }
  (score, issues)

/-- `analyze_phone` (lines 41–145).  For any input containing a digit the
function raises `NameError`: the local name `details` is assigned-to at line
117 inside the `try` (where the resulting `NameError` is caught, discarding
the `max(score, ml_score)` combination of line 116 and falling back to the
heuristic score) and read at line 137 via `details.update({...})` outside any
`try` — but `details` is never initialised anywhere in the function.  The
`ml` argument models the optional module-level classifier probability; its
presence does not change the outcome. -/
def analyze_phone (phone : String) (ml : Option ℚ) : Except PyErr (ℚ × String × List Issue) :=
  let cleaned := clean_phone_number phone
  let digits := String.mk (cleaned.toList.filter Char.isDigit)
  if digits = "" then .ok (0, "safe", [])
  else .error .nameError

/-! ### Page analyzer auto-redirect section (`page_analyzer.py`) -/

/-- The parts of the parsed page document read by the auto-redirect section:
the text of the `<script>` elements and the `content` attribute of a
`<meta http-equiv="refresh">` tag when one exists.  The document arrives
pre-parsed (spec §4.4); HTML fetching/parsing is an external collaborator. -/
structure PageDoc where
  scripts : List String
  metaRefreshContent : Option String
deriving DecidableEq

/-- Lines 126–133 of `page_analyzer.py`: every `<script>`/`<style>` element is
`decompose()`d (removed from the tree) before the visible text is extracted —
and therefore before any later `soup.find_all('script')`. -/
def soupAfterDecompose (doc : PageDoc) : PageDoc :=
  { doc with scripts := [] }

/-- Lines 293–297: `is_trusted_brand` — the page's own domain is an official
brand domain or a subdomain of one. -/
def is_trusted_brand (main_domain : String) : Prop :=
  ∃ p ∈ BRAND_DOMAINS, ∃ d ∈ p.2, main_domain = d ∨ strEnds main_domain ("." ++ d)

instance (s : String) : Decidable (is_trusted_brand s) := by
  unfold is_trusted_brand; infer_instance

/-- Lines 313–324: the first script whose text mentions
`window.location.replace` or `window.location.href` together with `http`
yields one `javascript_redirect` issue (then `break`). -/
def js_redirect_scan : List String → List Issue
  | [] => []
  | s :: rest =>
      let t := pyLower s
      if (strIn "window.location.replace" t ∨ strIn "window.location.href" t) ∧ strIn "http" t
      then [{ type := "javascript_redirect", severity := 0.4 }]
      else js_redirect_scan rest

/-- The auto-redirect section (step 9, lines 290–324) of
`analyze_page_content`, applied to the document as it stands at that point of
the function: the scripts were already decomposed at lines 126–133, so the
`soup.find_all('script')` of line 313 scans an empty collection. -/
def analyze_page_autoredirect (url : String) (doc : PageDoc) : Except PyErr (List Issue) := do
  let url := if strStarts url "http://" ∨ strStarts url "https://" then url else "http://" ++ url
  let p ← urlparse url
  let main_domain := pyLower p.netloc
  let soup := soupAfterDecompose doc
  if is_trusted_brand main_domain then return []
  else
    let metaIssues :=
      match doc.metaRefreshContent with
      | some content =>
          issueIf (strIn "url=" (pyLower content)) { type := "meta_refresh_redirect", severity := 0.75 }
      | none => []
    return (metaIssues ++ js_redirect_scan soup.scripts)

/-! ### Spec-side definitions (written from the spec's words) -/

/-- The single fixed threshold function of spec §3: `score < 0.30 → safe`,
`0.30 ≤ score < 0.65 → suspicious`, `score ≥ 0.65 → phishing`. -/
def verdict_of (score : ℚ) : String :=
  if score < 0.3 then "safe" else if score < 0.65 then "suspicious" else "phishing"

instance : Std.Antisymm (α := ℚ) (· ≤ ·) :=
  ⟨fun {a b} h h2 => le_antisymm h h2⟩

/-- The spec-§4.6 four-branch blend, written from the spec's words. -/
def spec_combine (heuristic learned : ℚ) (issues : List Issue) : ℚ :=
  if ∃ i ∈ issues, 0.85 ≤ i.severity then heuristic * 0.7 + learned * 0.3
  else if 0.6 < heuristic ∧ 0.6 < learned then
    max heuristic learned * 0.9 + min heuristic learned * 0.1
  else if 0.5 < heuristic ∨ 0.5 < learned then
    max heuristic learned * 0.6 + min heuristic learned * 0.4
  else heuristic * 0.5 + learned * 0.5

/-- Every severity constant the detectors emit is a nonnegative multiple of
`1/20`. -/
def gridSev (s : ℚ) : Prop := ∃ n : ℕ, s = n / 20

/-- The domain's primary label, `base_domain.split('.')[0]`. -/
def domainLabel (domain : String) : String :=
  (pySplit (_extract_base_domain (_normalize_domain domain)) '.').headD ""

/-- The full per-official qualification tested by the typosquat inner loop
(pre-filter and match window), excluding the running-best comparison. -/
def typoHit (dn official : String) : Prop :=
  intDist dn.length (canonLabel official).length ≤ 3 ∧
  0 < _levenshtein_distance dn (canonLabel official) ∧
  _levenshtein_distance dn (canonLabel official) ≤ 2 ∧
  4 ≤ (canonLabel official).length

instance (dn o : String) : Decidable (typoHit dn o) := by
  unfold typoHit; infer_instance

/-- The claim-side qualification, in the spec's words (no pre-filter). -/
def typoHitSpec (dn official : String) : Prop :=
  0 < _levenshtein_distance dn (canonLabel official) ∧
  _levenshtein_distance dn (canonLabel official) ≤ 2 ∧
  4 ≤ (canonLabel official).length

instance (dn o : String) : Decidable (typoHitSpec dn o) := by
  unfold typoHitSpec; infer_instance

/-! ### Helper lemmas -/

theorem pyRoundInt_intCast (n : ℤ) : pyRoundInt (n : ℚ) = n := by
  unfold pyRoundInt
  norm_num [Int.floor_intCast]

theorem round4_fix (q : ℚ) (n : ℤ) (h : q * 10000 = (n : ℚ)) (h2 : (n : ℚ) / 10000 = q) :
    round4 q = q := by
  unfold round4
  rw [h, pyRoundInt_intCast, h2]

/-- C7: `https://kaspi.kz` triggers no issue at all, scores the 0.05 baseline
and is ruled `safe`; `http://kaspi-secure-login.tk/verify` collects the
brand-in-domain, no-HTTPS, suspicious-path, suspicious-TLD and
excessive-hyphens issues, scores 0.84 ≥ 0.65 and is ruled `phishing`. -/
theorem C7_scenario_results :
    analyze_url_heuristic "https://kaspi.kz" = .ok (0.05, "safe", []) ∧
    ∃ issues,
      analyze_url_heuristic "http://kaspi-secure-login.tk/verify" =
        .ok (0.84, "phishing", issues) ∧
      (∃ i ∈ issues, i.type = "brand_impersonation") ∧
      (∃ i ∈ issues, i.type = "suspicious_tld") ∧
      (∃ i ∈ issues, i.type = "no_https") ∧
      (0.65 : ℚ) ≤ 0.84 := by
  have hr005 : round4 (0.05 : ℚ) = 0.05 := round4_fix _ 500 (by norm_num) (by norm_num)
  have hr084 : round4 (0.84 : ℚ) = 0.84 := round4_fix _ 8400 (by norm_num) (by norm_num)
  constructor
  · have h : analyze_url_heuristic "https://kaspi.kz" =
        .ok (round4 (heuristic_score []),
             if heuristic_score [] < 0.3 then "safe"
             else if heuristic_score [] < 0.65 then "suspicious" else "phishing", []) := rfl
    have hs : heuristic_score [] = 0.05 := by norm_num [heuristic_score]
    rw [h, hs, hr005, if_pos (by norm_num : (0.05 : ℚ) < 0.3)]
  · refine ⟨[{ type := "brand_impersonation", severity := 0.9, brand := "kaspi" },
             { type := "no_https", severity := 0.5 },
             { type := "suspicious_path", severity := 0.35 },
             { type := "suspicious_tld", severity := 0.65 },
             { type := "excessive_hyphens", severity := 0.6 }], ?_, ?_, ?_, ?_, by norm_num⟩
    · have h : analyze_url_heuristic "http://kaspi-secure-login.tk/verify" =
          .ok (round4 (heuristic_score
                [{ type := "brand_impersonation", severity := 0.9, brand := "kaspi" },
                 { type := "no_https", severity := 0.5 },
                 { type := "suspicious_path", severity := 0.35 },
                 { type := "suspicious_tld", severity := 0.65 },
                 { type := "excessive_hyphens", severity := 0.6 }]),
               if heuristic_score
                [{ type := "brand_impersonation", severity := 0.9, brand := "kaspi" },
                 { type := "no_https", severity := 0.5 },
                 { type := "suspicious_path", severity := 0.35 },
                 { type := "suspicious_tld", severity := 0.65 },
                 { type := "excessive_hyphens", severity := 0.6 }] < 0.3 then "safe"
               else if heuristic_score
                [{ type := "brand_impersonation", severity := 0.9, brand := "kaspi" },
                 { type := "no_https", severity := 0.5 },
                 { type := "suspicious_path", severity := 0.35 },
                 { type := "suspicious_tld", severity := 0.65 },
                 { type := "excessive_hyphens", severity := 0.6 }] < 0.65 then "suspicious"
               else "phishing",
               [{ type := "brand_impersonation", severity := 0.9, brand := "kaspi" },
                 { type := "no_https", severity := 0.5 },
                 { type := "suspicious_path", severity := 0.35 },
                 { type := "suspicious_tld", severity := 0.65 },
                 { type := "excessive_hyphens", severity := 0.6 }]) := rfl
      have hs : heuristic_score
          [{ type := "brand_impersonation", severity := 0.9, brand := "kaspi" },
           { type := "no_https", severity := 0.5 },
           { type := "suspicious_path", severity := 0.35 },
           { type := "suspicious_tld", severity := 0.65 },
           { type := "excessive_hyphens", severity := 0.6 }] = 0.84 := by
        norm_num [heuristic_score, List.insertionSort, List.orderedInsert]
        exact List.cons_ne_nil _ _
      rw [h, hs, hr084, if_neg (by norm_num : ¬ (0.84 : ℚ) < 0.3),
        if_neg (by norm_num : ¬ (0.84 : ℚ) < 0.65)]
    · exact ⟨_, List.mem_cons_self .., rfl⟩
    · refine ⟨{ type := "suspicious_tld", severity := 0.65 }, by simp, rfl⟩
    · refine ⟨{ type := "no_https", severity := 0.5 }, by simp, rfl⟩


theorem max?_getD_eq (l : List ℚ) (m : ℚ) (hm : m ∈ l) (hle : ∀ x ∈ l, x ≤ m) :
    l.max? = some m := by
  rw [List.max?_eq_some_iff (fun a => le_refl a) (fun a b => max_choice a b)
    (fun a b c => max_le_iff)]
  exact ⟨hm, hle⟩

theorem sorted_desc_head_max (l : List ℚ) (m : ℚ) (rest : List ℚ)
    (h : l.insertionSort (· ≥ ·) = m :: rest) : l.max? = some m := by
  have hperm : (m :: rest).Perm l := h ▸ List.perm_insertionSort _ l
  have hsorted : List.Sorted (· ≥ ·) (m :: rest) := h ▸ List.sorted_insertionSort _ l
  refine max?_getD_eq l m (hperm.mem_iff.1 (List.mem_cons_self m rest)) ?_
  intro x hx
  rcases List.mem_cons.1 (hperm.symm.mem_iff.1 hx) with rfl | hx'
  · exact le_refl x
  · exact (List.sorted_cons.1 hsorted).1 x hx'

/-- C2: the heuristic aggregation equals the formula of spec §4.6: score 0.05
on an empty issue set; otherwise, with the severities sorted descending and
the top 5 kept, `max_sev` the highest severity, `avg_sev` the mean of the
kept severities and `issue_bonus = min(0.15, issue_count*0.03)`, the score is
`max_sev*0.6 + avg_sev*0.25 + issue_bonus` when more than one severity was
kept and `max_sev*0.85 + issue_bonus` when only one was, clamped to [0,1]. -/
theorem C2_aggregation_formula (issues : List Issue) :
    heuristic_score issues =
      if issues = [] then 0.05
      else
        let sevs := issues.map Issue.severity
        let kept := (sevs.insertionSort (· ≥ ·)).take 5
        let max_sev := sevs.max?.getD 0
        let issue_bonus := min 0.15 ((issues.length : ℚ) * 0.03)
        min 1 (max 0
          (if 1 < kept.length then
            max_sev * 0.6 + (kept.sum / (kept.length : ℚ)) * 0.25 + issue_bonus
           else max_sev * 0.85 + issue_bonus)) := by
  by_cases h : issues = []
  · simp [heuristic_score, h]
  · have hne : issues.map Issue.severity ≠ [] := by
      simpa using h
    have hsne : (issues.map Issue.severity).insertionSort (· ≥ ·) ≠ [] := by
      intro hcon
      exact hne (List.Perm.eq_nil (hcon ▸ (List.perm_insertionSort _ (issues.map Issue.severity))).symm)
    obtain ⟨m, rest, hm⟩ : ∃ m rest, (issues.map Issue.severity).insertionSort (· ≥ ·) = m :: rest :=
      match hs : (issues.map Issue.severity).insertionSort (· ≥ ·), hsne with
      | m :: rest, _ => ⟨m, rest, rfl⟩
    have hmax : (issues.map Issue.severity).max? = some m := sorted_desc_head_max _ m rest hm
    simp only [heuristic_score, if_neg h, hm, hmax, List.take_succ_cons, List.headD_cons,
      Option.getD_some]


theorem pyRoundInt_up (x : ℚ) (n : ℤ) (hf : (n : ℚ) ≤ x) (hf2 : x < n + 1)
    (h : 1/2 < x - n) : pyRoundInt x = n + 1 := by
  unfold pyRoundInt
  rw [show ⌊x⌋ = n from Int.floor_eq_iff.2 ⟨hf, by exact_mod_cast hf2⟩,
    if_neg (by linarith), if_pos h]

/-- C3 amended: the ensemble combiner returns the spec's four-branch blend
rounded to four decimal places and then clamped to [0,1], with the verdict
recomputed from that returned score; the severity-0.9 scenario yields exactly
0.935 and `phishing`. -/
theorem C3_combine_formula :
    (∀ ml h v1 v2 issues,
        combine_scores ml h v1 v2 issues =
          (min 1 (max 0 (round4 (spec_combine h ml issues))),
           verdict_of (min 1 (max 0 (round4 (spec_combine h ml issues)))))) ∧
    combine_scores 0.9 0.95 "phishing" "phishing"
        [{ type := "typosquatting", severity := 0.9 }] = (0.935, "phishing") := by
  have hmain : ∀ ml h v1 v2 issues,
      combine_scores ml h v1 v2 issues =
        (min 1 (max 0 (round4 (spec_combine h ml issues))),
         verdict_of (min 1 (max 0 (round4 (spec_combine h ml issues))))) := by
    intro ml h v1 v2 issues
    simp only [combine_scores, spec_combine, verdict_of]
    rw [max_comm ml h, min_comm ml h, add_comm (ml * 0.5) (h * 0.5)]
  refine ⟨hmain, ?_⟩
  rw [hmain]
  have hcrit : ∃ i ∈ [({ type := "typosquatting", severity := 0.9 } : Issue)], 0.85 ≤ i.severity := by
    refine ⟨_, List.mem_cons_self .., by norm_num⟩
  have hs : spec_combine 0.95 0.9 [{ type := "typosquatting", severity := 0.9 }] = 0.935 := by
    rw [spec_combine, if_pos hcrit]
    norm_num
  rw [hs, round4_fix _ 9350 (by norm_num) (by norm_num)]
  norm_num [verdict_of, Prod.ext_iff]

/-- C3 as stated is false on the code: the combiner rounds to four decimal
places before clamping, so with `learned = 0`, `heuristic = 0.1111` and a
critical issue it returns 0.0778, not the exact blend
`0.1111*0.7 + 0*0.3 = 0.07777`. -/
theorem C3_counterexample :
    (combine_scores 0 0.1111 "safe" "safe" [{ type := "t", severity := 0.9 }]).1 ≠
      min 1 (max 0 ((0.1111 : ℚ) * 0.7 + 0 * 0.3)) := by
  have hcrit : ∃ i ∈ [({ type := "t", severity := 0.9 } : Issue)], 0.85 ≤ i.severity := by
    refine ⟨_, List.mem_cons_self .., by norm_num⟩
  have hround : round4 ((0.1111 : ℚ) * 0.7 + 0 * 0.3) = 0.0778 := by
    unfold round4
    rw [show ((0.1111 : ℚ) * 0.7 + 0 * 0.3) * 10000 = 777.7 by norm_num,
      pyRoundInt_up 777.7 777 (by norm_num) (by norm_num) (by norm_num)]
    norm_num
  simp only [combine_scores, if_pos hcrit, hround]
  norm_num

/-- Permutation-invariance of the descending sort. -/
theorem insertionSort_desc_perm_eq {l1 l2 : List ℚ} (h : l1.Perm l2) :
    l1.insertionSort (· ≥ ·) = l2.insertionSort (· ≥ ·) := by
  refine List.eq_of_perm_of_sorted
    ((List.perm_insertionSort _ _).trans (h.trans (List.perm_insertionSort _ _).symm))
    (List.sorted_insertionSort _ _) (List.sorted_insertionSort _ _)

/-- C9: the aggregation and the combiner are pure functions of their inputs;
beyond that, both are invariant under reordering of the issue list (the
aggregation reads only the severity multiset and the count, the combiner only
the existence of a critical severity). -/
theorem C9_pure_deterministic :
    (∀ l1 l2 : List Issue, l1.Perm l2 → heuristic_score l1 = heuristic_score l2) ∧
    (∀ ml h v1 v2 (l1 l2 : List Issue), l1.Perm l2 →
      combine_scores ml h v1 v2 l1 = combine_scores ml h v1 v2 l2) := by
  constructor
  · intro l1 l2 hp
    have hlen : l1.length = l2.length := hp.length_eq
    have hsort : (l1.map Issue.severity).insertionSort (· ≥ ·) =
        (l2.map Issue.severity).insertionSort (· ≥ ·) :=
      insertionSort_desc_perm_eq (hp.map _)
    by_cases h1 : l1 = []
    · have h2 : l2 = [] := List.Perm.eq_nil (h1 ▸ hp.symm)
      rw [h1, h2]
    · have h2 : l2 ≠ [] := by
        intro h2
        exact h1 (List.Perm.eq_nil (h2 ▸ hp))
      simp only [heuristic_score, if_neg h1, if_neg h2, hsort, hlen]
  · intro ml h v1 v2 l1 l2 hp
    have hcrit : (∃ i ∈ l1, 0.85 ≤ i.severity) ↔ (∃ i ∈ l2, 0.85 ≤ i.severity) := by
      constructor <;> rintro ⟨i, hi, hs⟩
      · exact ⟨i, hp.mem_iff.1 hi, hs⟩
      · exact ⟨i, hp.mem_iff.2 hi, hs⟩
    simp only [combine_scores, hcrit]

/-- Witness for C9 at concrete inputs. -/
theorem C9_pure_deterministic_witness :
    heuristic_score [{ type := "a", severity := 0.9 }, { type := "b", severity := 0.5 }] =
      heuristic_score [{ type := "b", severity := 0.5 }, { type := "a", severity := 0.9 }] ∧
    combine_scores 0.2 0.3 "safe" "safe"
        [{ type := "a", severity := 0.9 }, { type := "b", severity := 0.5 }] =
      combine_scores 0.2 0.3 "safe" "safe"
        [{ type := "b", severity := 0.5 }, { type := "a", severity := 0.9 }] :=
  ⟨C9_pure_deterministic.1 _ _ (List.Perm.swap _ _ _),
   C9_pure_deterministic.2 0.2 0.3 "safe" "safe" _ _ (List.Perm.swap _ _ _)⟩

/-- C5: on `+234 809 333 4444` the additive phone heuristic reaches
`0.1 + 0.6 = 0.7 ≥ 0.6` with the high-risk-country issue — but
`analyze_phone` never returns it: with or without a loaded classifier it
raises `NameError` (`details` is never initialised), so no verdict is
produced for any phone number that contains a digit. -/
theorem C5_phone_scoring :
    phone_heuristic "+234 809 333 4444" =
      (0.7, [{ type := "high_risk_country", severity := 0.7 }]) ∧
    (0.6 : ℚ) ≤ 0.7 ∧
    analyze_phone "+234 809 333 4444" none = .error .nameError ∧
    analyze_phone "+234 809 333 4444" (some 0.9) = .error .nameError := by
  refine ⟨?_, by norm_num, rfl, rfl⟩
  have h : phone_heuristic "+234 809 333 4444" =
      ((0.1 : ℚ) + 0 + 0.6 + 0 + 0, [{ type := "high_risk_country", severity := 0.7 }]) := rfl
  rw [h]
  norm_num [Prod.ext_iff]

/-- C6: a URL whose parse raises inside the guarded `try` yields the single
synthetic unparseable issue of severity 1.0 — but the engine is not
exception-free: every digit-bearing phone number raises `NameError`, and the
unguarded `urlparse` inside `check_brand_impersonation` lets a `ValueError`
escape `analyze_url_heuristic` for inputs such as `//[x`. -/
theorem C6_error_handling :
    analyze_url_heuristic "http://[x" =
      .ok (1, "phishing", [{ type := "unparseable", severity := 1 }]) ∧
    analyze_phone "+7 701 555 1234" none = .error .nameError ∧
    analyze_url_heuristic "//[x" = .error .valueError :=
  ⟨rfl, rfl, rfl⟩

/-- C8: the auto-redirect detector of the page analyzer.  A non-brand page
whose only script performs `window.location.replace` toward an absolute URL
produces *no* `javascript_redirect` issue — every `<script>` element was
removed (`decompose()`) before `find_all('script')` runs, even though the
script text itself matches the detector's pattern (second conjunct).  The
meta-refresh branch works, and a brand page (here `kaspi.kz`) is exempt. -/
theorem C8_autoredirect :
    analyze_page_autoredirect "http://evil-site.com"
        { scripts := ["window.location.replace(http://evil.com)"], metaRefreshContent := none } =
      .ok [] ∧
    js_redirect_scan ["window.location.replace(http://evil.com)"] =
      [{ type := "javascript_redirect", severity := 0.4 }] ∧
    analyze_page_autoredirect "http://evil-site.com"
        { scripts := [], metaRefreshContent := some "0; URL=http://next.com" } =
      .ok [{ type := "meta_refresh_redirect", severity := 0.75 }] ∧
    analyze_page_autoredirect "https://kaspi.kz"
        { scripts := [], metaRefreshContent := some "0; URL=http://next.com" } = .ok [] :=
  ⟨rfl, rfl, rfl, rfl⟩

/-- Every official domain's registrable base is itself in the same brand's
official list (a property of this concrete registry; it makes the
`domain_lower in official_domains` half of the skip condition redundant). -/
theorem registry_base_closed :
    ∀ p ∈ BRAND_DOMAINS, ∀ d ∈ p.2, _extract_base_domain d ∈ p.2 := by decide

theorem mem_issueIf {c : Prop} [Decidable c] {i j : Issue} (h : i ∈ issueIf c j) : i = j := by
  unfold issueIf at h
  split at h
  · simpa using h
  · simp at h

theorem self_mem_issueIf {c : Prop} [Decidable c] (hc : c) (i : Issue) : i ∈ issueIf c i := by
  simp [issueIf, hc]

/-- C10: the host-substring branch of `check_brand_impersonation` fires, with
severity 0.9, for every registered brand that occurs as a substring of the
normalised host whose registrable base is not one of the brand's canonical
domains — with no minimum length on the brand name; in particular the
2-character brand `vk` fires inside `myvkontakte.com` and `mail` fires inside
`mailchimp.com`. -/
theorem C10_host_substring_brand_check :
    (∀ url domain brand offs res,
        (brand, offs) ∈ BRAND_DOMAINS →
        strIn brand (_normalize_domain domain) →
        _extract_base_domain (_normalize_domain domain) ∉ offs →
        check_brand_impersonation url domain = .ok res →
        { type := "brand_impersonation", severity := 0.9, brand := brand } ∈ res) ∧
    ((∃ res, check_brand_impersonation "http://myvkontakte.com" "myvkontakte.com" = .ok res ∧
        { type := "brand_impersonation", severity := 0.9, brand := "vk" } ∈ res) ∧
      "vk".length < 4) ∧
    (∃ res, check_brand_impersonation "http://mailchimp.com" "mailchimp.com" = .ok res ∧
        { type := "brand_impersonation", severity := 0.9, brand := "mail" } ∈ res) := by
  refine ⟨?_,
    ⟨⟨[{ type := "brand_impersonation", severity := 0.9, brand := "vk" }], rfl,
      List.mem_cons_self ..⟩, by decide⟩,
    ⟨[{ type := "brand_impersonation", severity := 0.9, brand := "mail" }], rfl,
      List.mem_cons_self ..⟩⟩
  intro url domain brand offs res hbrand hsub hbase hres
  rcases hok : urlparse (pyLower url) with e | pu
  · simp only [check_brand_impersonation, hok] at hres
    exact Except.noConfusion hres
  · simp only [check_brand_impersonation, hok, Except.ok.injEq] at hres
    subst hres
    refine List.mem_flatMap.2 ⟨(brand, offs), hbrand, ?_⟩
    have hdl : _normalize_domain domain ∉ offs := fun hmem =>
      hbase (registry_base_closed (brand, offs) hbrand _ hmem)
    unfold brandLoopBody
    rw [if_neg (not_or.2 ⟨hbase, hdl⟩)]
    exact List.mem_append_left _ (List.mem_append_left _ (self_mem_issueIf hsub _))

/-- Witness for C10 at the `mail`/`mailchimp.com` instance. -/
theorem C10_host_substring_brand_check_witness :
    { type := "brand_impersonation", severity := 0.9, brand := "mail" } ∈
      ([{ type := "brand_impersonation", severity := 0.9, brand := "mail" }] : List Issue) :=
  C10_host_substring_brand_check.1 "http://mailchimp.com" "mailchimp.com" "mail" ["mail.ru"] _
    (by decide) (by decide) (by decide) rfl

/-! ### C1 infrastructure: the emitted severities live on the 1/20 grid -/


theorem typoLoop_some_shape (dn b : String) :
    ∀ (offs : List String) (best : Option Issue) (m : Issue),
      typoLoop dn b offs best = some m →
      (∃ d o, m = mkTypoIssue b dn o d) ∨ best = some m := by
  intro offs
  induction offs with
  | nil => exact fun best m h => Or.inr h
  | cons off rest ih =>
      intro best m h
      unfold typoLoop at h
      dsimp only at h
      split at h
      · exact ih best m h
      · split at h
        · rcases ih _ m h with h' | h'
          · exact Or.inl h'
          · exact Or.inl ⟨_, _, (Option.some.inj h').symm⟩
        · exact ih best m h

theorem gridSev_typosquatting (domain : String) :
    ∀ i ∈ check_typosquatting domain, gridSev i.severity := by
  intro i hi
  unfold check_typosquatting at hi
  obtain ⟨p, hp, hip⟩ := List.mem_flatMap.1 hi
  revert hip
  split
  · intro hip; simp at hip
  · intro hip
    have hsome := Option.mem_toList.1 hip
    rcases typoLoop_some_shape _ _ _ _ _ hsome with ⟨d, o, rfl⟩ | hfalse
    · by_cases hd : d = 1
      · exact ⟨19, by simp [mkTypoIssue, hd]; norm_num⟩
      · exact ⟨16, by simp [mkTypoIssue, hd]; norm_num⟩
    · exact Option.noConfusion hfalse

theorem gridSev_brandLoopBody (brand : String) (offs : List String) (dl base pl : String) :
    ∀ i ∈ brandLoopBody brand offs dl base pl, gridSev i.severity := by
  intro i hi
  unfold brandLoopBody at hi
  split at hi
  · simp at hi
  · simp only [List.mem_append] at hi
    rcases hi with (h | h) | h
    · exact (mem_issueIf h) ▸ ⟨18, by norm_num⟩
    · revert h
      split
      · intro h
        obtain ⟨_, _, rfl⟩ := List.mem_map.1 h
        exact ⟨17, by norm_num⟩
      · intro h; simp at h
    · exact (mem_issueIf h) ▸ ⟨14, by norm_num⟩

theorem gridSev_brand_impersonation (url domain : String) (res : List Issue)
    (h : check_brand_impersonation url domain = .ok res) :
    ∀ i ∈ res, gridSev i.severity := by
  intro i hi
  rcases hok : urlparse (pyLower url) with e | pu
  · simp only [check_brand_impersonation, hok] at h
    exact Except.noConfusion h
  · simp only [check_brand_impersonation, hok, Except.ok.injEq] at h
    subst h
    obtain ⟨p, hp, hip⟩ := List.mem_flatMap.1 hi
    exact gridSev_brandLoopBody _ _ _ _ _ i hip

theorem gridSev_casino (url domain : String) :
    ∀ i ∈ check_casino_patterns url domain, gridSev i.severity := by
  intro i hi
  simp only [check_casino_patterns] at hi
  split at hi
  · exact (List.mem_singleton.1 hi) ▸ ⟨17, by norm_num⟩
  · split at hi
    · exact (List.mem_singleton.1 hi) ▸ ⟨12, by norm_num⟩
    · simp at hi

theorem gridSev_url_patterns (url domain : String) (parsed : ParsedUrl) :
    ∀ i ∈ check_url_patterns url domain parsed, gridSev i.severity := by
  intro i hi
  simp only [check_url_patterns, List.mem_append] at hi
  rcases hi with ((((((((((((((((h|h)|h)|h)|h)|h)|h)|h)|h)|h)|h)|h)|h)|h)|h)|h)|h)|h
  · exact (mem_issueIf h) ▸ ⟨17, by norm_num⟩
  · exact (mem_issueIf h) ▸ ⟨8, by norm_num⟩
  · exact (mem_issueIf h) ▸ ⟨14, by norm_num⟩
  · exact (mem_issueIf h) ▸ ⟨18, by norm_num⟩
  · exact (mem_issueIf h) ▸ ⟨12, by norm_num⟩
  · exact (mem_issueIf h) ▸ ⟨10, by norm_num⟩
  · revert h
    split
    · exact fun h => (List.mem_singleton.1 h) ▸ ⟨14, by norm_num⟩
    · split
      · exact fun h => (List.mem_singleton.1 h) ▸ ⟨7, by norm_num⟩
      · intro h; simp at h
  · exact (mem_issueIf h) ▸ ⟨13, by norm_num⟩
  · exact (mem_issueIf h) ▸ ⟨12, by norm_num⟩
  · exact (mem_issueIf h) ▸ ⟨19, by norm_num⟩
  · exact (mem_issueIf h) ▸ ⟨19, by norm_num⟩
  · exact (mem_issueIf h) ▸ ⟨20, by norm_num⟩
  · revert h
    rcases doubleExt parsed.path with _ | ⟨e1, e2⟩
    · intro h; simp at h
    · exact fun h => (mem_issueIf h) ▸ ⟨19, by norm_num⟩
  · exact (mem_issueIf h) ▸ ⟨8, by norm_num⟩
  · exact (mem_issueIf h) ▸ ⟨16, by norm_num⟩
  · revert h
    split
    · rcases portOf domain with _ | prt
      · intro h; simp at h
      · exact fun h => (mem_issueIf h) ▸ ⟨10, by norm_num⟩
    · intro h; simp at h
  · exact (mem_issueIf h) ▸ ⟨12, by norm_num⟩
  · exact (mem_issueIf h) ▸ ⟨10, by norm_num⟩

theorem gridSum (l : List ℚ) (h : ∀ x ∈ l, gridSev x) : ∃ S : ℕ, l.sum = S / 20 := by
  induction l with
  | nil => exact ⟨0, by norm_num⟩
  | cons a t ih =>
      obtain ⟨n, hn⟩ := h a (List.mem_cons_self ..)
      obtain ⟨S, hS⟩ := ih (fun x hx => h x (List.mem_cons_of_mem _ hx))
      refine ⟨n + S, ?_⟩
      rw [List.sum_cons, hn, hS]
      push_cast
      ring

theorem bonus_form (n : ℕ) : ∃ B : ℕ, min (0.15 : ℚ) ((n : ℚ) * 0.03) = B / 100 := by
  by_cases h : n ≤ 4
  · refine ⟨3 * n, ?_⟩
    have hn : (n : ℚ) ≤ 4 := by exact_mod_cast h
    rw [min_eq_right (by nlinarith)]
    push_cast
    ring
  · refine ⟨15, ?_⟩
    have hn : (5 : ℚ) ≤ (n : ℚ) := by exact_mod_cast Nat.lt_of_not_le h
    rw [min_eq_left (by nlinarith)]
    norm_num

theorem clamp_grid (M N0 : ℕ) (hM : 0 < M) :
    ∃ N : ℕ, N ≤ M ∧ min 1 (max 0 ((N0 : ℚ) / M)) = N / M := by
  have hMQ : (0 : ℚ) < (M : ℚ) := by exact_mod_cast hM
  rw [max_eq_right (by positivity)]
  by_cases h : N0 ≤ M
  · exact ⟨N0, h, min_eq_right (by rw [div_le_one hMQ]; exact_mod_cast h)⟩
  · refine ⟨M, le_refl M, ?_⟩
    rw [min_eq_left, eq_comm, div_self (ne_of_gt hMQ)]
    rw [one_le_div hMQ]
    exact_mod_cast Nat.le_of_lt (Nat.lt_of_not_le h)

theorem heuristic_score_gridform (issues : List Issue)
    (hg : ∀ i ∈ issues, gridSev i.severity) (hne : issues ≠ []) :
    ∃ k N : ℕ, 1 ≤ k ∧ k ≤ 5 ∧ N ≤ 400 * k ∧
      heuristic_score issues = (N : ℚ) / (400 * k) := by
  have hsortmem : ∀ x ∈ (issues.map Issue.severity).insertionSort (· ≥ ·), gridSev x := by
    intro x hx
    obtain ⟨i, hi, rfl⟩ := List.mem_map.1 ((List.perm_insertionSort _ _).mem_iff.1 hx)
    exact hg i hi
  have hnem : issues.map Issue.severity ≠ [] := by simpa using hne
  have hsne : (issues.map Issue.severity).insertionSort (· ≥ ·) ≠ [] := by
    intro hcon
    exact hnem (List.Perm.eq_nil (hcon ▸ (List.perm_insertionSort _ (issues.map Issue.severity))).symm)
  obtain ⟨m, rest, hm⟩ : ∃ m rest, (issues.map Issue.severity).insertionSort (· ≥ ·) = m :: rest :=
    match hs : (issues.map Issue.severity).insertionSort (· ≥ ·), hsne with
    | m :: rest, _ => ⟨m, rest, rfl⟩
  obtain ⟨nm, hnm⟩ := hsortmem m (hm ▸ List.mem_cons_self ..)
  obtain ⟨B, hB⟩ := bonus_form issues.length
  have htake : ((issues.map Issue.severity).insertionSort (· ≥ ·)).take 5 = m :: rest.take 4 := by
    rw [hm, List.take_succ_cons]
  obtain ⟨S, hS⟩ : ∃ S : ℕ, (m :: rest.take 4).sum = (S : ℚ) / 20 := by
    refine gridSum _ (fun x hx => hsortmem x ?_)
    exact (List.take_sublist 5 _).subset (htake ▸ hx)
  have hlpos : 0 < (m :: rest.take 4).length := by simp
  have hlq : (0 : ℚ) < ((m :: rest.take 4).length : ℚ) := by exact_mod_cast hlpos
  have hlne : ((m :: rest.take 4).length : ℚ) ≠ 0 := ne_of_gt hlq
  have hk5 : (m :: rest.take 4).length ≤ 5 := by
    rw [← htake]
    exact List.length_take_le 5 _
  by_cases hb : 1 < (m :: rest.take 4).length
  · have hscore : heuristic_score issues =
        min 1 (max 0 (m * 0.6 + ((m :: rest.take 4).sum / ((m :: rest.take 4).length : ℚ)) * 0.25 +
          min 0.15 ((issues.length : ℚ) * 0.03))) := by
      simp only [heuristic_score, if_neg hne, hm, List.take_succ_cons, List.headD_cons, if_pos hb]
    have hval : m * 0.6 + ((m :: rest.take 4).sum / ((m :: rest.take 4).length : ℚ)) * 0.25 +
          min 0.15 ((issues.length : ℚ) * 0.03) =
        ((12 * nm * (m :: rest.take 4).length + 5 * S + 4 * B * (m :: rest.take 4).length : ℕ) : ℚ) /
          ((400 * (m :: rest.take 4).length : ℕ) : ℚ) := by
      rw [hS, hnm, hB]
      push_cast
      field_simp
      ring
    obtain ⟨N, hNle, hNeq⟩ := clamp_grid (400 * (m :: rest.take 4).length)
      (12 * nm * (m :: rest.take 4).length + 5 * S + 4 * B * (m :: rest.take 4).length)
      (Nat.mul_pos (by norm_num) hlpos)
    refine ⟨(m :: rest.take 4).length, N, hlpos, hk5, hNle, ?_⟩
    rw [hscore, hval, hNeq]
    push_cast
    ring
  · have hscore : heuristic_score issues =
        min 1 (max 0 (m * 0.85 + min 0.15 ((issues.length : ℚ) * 0.03))) := by
      simp only [heuristic_score, if_neg hne, hm, List.take_succ_cons, List.headD_cons, if_neg hb]
    have hval : m * 0.85 + min 0.15 ((issues.length : ℚ) * 0.03) =
        ((17 * nm + 4 * B : ℕ) : ℚ) / ((400 * 1 : ℕ) : ℚ) := by
      rw [hnm, hB]
      push_cast
      field_simp
      ring
    obtain ⟨N, hNle, hNeq⟩ := clamp_grid (400 * 1) (17 * nm + 4 * B) (by norm_num)
    refine ⟨1, N, le_refl 1, by norm_num, hNle, ?_⟩
    rw [hscore, hval, hNeq]
    push_cast
    ring

theorem pyRoundInt_le_add_half (x : ℚ) : (pyRoundInt x : ℚ) ≤ x + 1/2 := by
  have h1 : (⌊x⌋ : ℚ) ≤ x := Int.floor_le x
  unfold pyRoundInt
  dsimp only
  split
  · linarith
  · next h2 =>
      split
      · push_cast; linarith [not_lt.1 h2]
      · split <;> push_cast <;> linarith [not_lt.1 h2]

theorem le_pyRoundInt (x : ℚ) (n : ℤ) (h : (n : ℚ) ≤ x) : n ≤ pyRoundInt x := by
  have hf : n ≤ ⌊x⌋ := Int.le_floor.2 h
  unfold pyRoundInt
  dsimp only
  split
  · exact hf
  · split
    · omega
    · split <;> omega

theorem pyRoundInt_le (x : ℚ) (n : ℤ) (h : x ≤ (n : ℚ)) : pyRoundInt x ≤ n := by
  have hf : ⌊x⌋ ≤ n := by
    have := Int.floor_le_floor h
    rwa [Int.floor_intCast] at this
  unfold pyRoundInt
  dsimp only
  split
  · exact hf
  · next h1 =>
      have hlt : (⌊x⌋ : ℚ) < x := by linarith [not_lt.1 h1]
      have hn : ⌊x⌋ < n := by exact_mod_cast lt_of_lt_of_le hlt h
      split
      · omega
      · split <;> omega

theorem round4_bounds (q : ℚ) (h0 : 0 ≤ q) (h1 : q ≤ 1) :
    0 ≤ round4 q ∧ round4 q ≤ 1 := by
  unfold round4
  constructor
  · have h := le_pyRoundInt (q * 10000) 0 (by push_cast; nlinarith)
    have : (0 : ℚ) ≤ (pyRoundInt (q * 10000) : ℚ) := by exact_mod_cast h
    positivity
  · have h := pyRoundInt_le (q * 10000) 10000 (by push_cast; nlinarith)
    have hc : (pyRoundInt (q * 10000) : ℚ) ≤ 10000 := by exact_mod_cast h
    rw [div_le_one (by norm_num)]
    exact hc

/-- On the `N/(400k)` grid with `k ≤ 5`, rounding to four decimal places
never crosses a threshold of the form `L/20`. -/
theorem round4_lt_iff_grid (k N L : ℕ) (hk1 : 1 ≤ k) (hk5 : k ≤ 5) (c : ℚ)
    (hc : c = (L : ℚ) / 20) :
    (round4 ((N : ℚ) / (400 * k)) < c ↔ (N : ℚ) / (400 * k) < c) := by
  subst hc
  have hkQ : (0 : ℚ) < (k : ℚ) := by exact_mod_cast lt_of_lt_of_le one_pos hk1
  have hkle : (k : ℚ) ≤ 5 := by exact_mod_cast hk5
  have hden : (0 : ℚ) < 400 * (k : ℚ) := by nlinarith
  constructor
  · intro hr
    by_contra hq
    push_neg at hq
    have hx : ((500 * L : ℤ) : ℚ) ≤ (N : ℚ) / (400 * k) * 10000 := by
      push_cast
      nlinarith [hq]
    have h2 := le_pyRoundInt _ _ hx
    have h3 : ((500 * L : ℤ) : ℚ) ≤ (pyRoundInt ((N : ℚ) / (400 * k) * 10000) : ℚ) := by
      exact_mod_cast h2
    unfold round4 at hr
    push_cast at h3
    nlinarith [hr]
  · intro hq
    have hN : (N : ℕ) < 20 * L * k := by
      have h1 : (N : ℚ) * 20 < (L : ℚ) * (400 * k) := by
        rw [div_lt_div_iff hden (by norm_num : (0:ℚ) < 20)] at hq
        exact hq
      have h2 : (N : ℚ) < 20 * L * k := by nlinarith
      exact_mod_cast h2
    have hNle : (N : ℚ) ≤ 20 * (L : ℚ) * k - 1 := by
      have h2 : (N : ℕ) + 1 ≤ 20 * L * k := hN
      have h3 : ((N : ℕ) : ℚ) + 1 ≤ ((20 * L * k : ℕ) : ℚ) := by exact_mod_cast h2
      push_cast at h3
      linarith
    have hr4 : round4 ((N : ℚ) / (400 * k)) ≤ (N : ℚ) / (400 * k) + 1/20000 := by
      unfold round4
      have h := pyRoundInt_le_add_half ((N : ℚ) / (400 * k) * 10000)
      rw [div_le_iff (by norm_num : (0:ℚ) < 10000)]
      linarith
    have key : (L : ℚ) / 20 - 1 / (400 * k) = (20 * (L : ℚ) * k - 1) / (400 * (k : ℚ)) := by
      field_simp
      ring
    have hqle : (N : ℚ) / (400 * k) ≤ (L : ℚ) / 20 - 1 / (400 * k) := by
      rw [key]
      gcongr
    have hsmall : (1 : ℚ) / 2000 ≤ 1 / (400 * (k : ℚ)) :=
      one_div_le_one_div_of_le hden (by nlinarith)
    linarith

/-- The inline verdict chain computed on a pre-rounding score agrees with the
spec's threshold function applied to the rounded score, whenever rounding
crosses neither threshold. -/
theorem verdict_chain_round4 (q : ℚ) (h3 : round4 q < 0.3 ↔ q < 0.3)
    (h13 : round4 q < 0.65 ↔ q < 0.65) :
    (if q < 0.3 then "safe" else if q < 0.65 then "suspicious" else "phishing") =
      verdict_of (round4 q) := by
  unfold verdict_of
  by_cases hq : q < 0.3
  · rw [if_pos hq, if_pos (h3.2 hq)]
  · rw [if_neg hq, if_neg (fun hc => hq (h3.1 hc))]
    by_cases hq2 : q < 0.65
    · rw [if_pos hq2, if_pos (h13.2 hq2)]
    · rw [if_neg hq2, if_neg (fun hc => hq2 (h13.1 hc))]

/-- C1: every result the system returns has `0 ≤ score ≤ 1`, and its verdict
is the fixed threshold function applied to that exact returned score — for
heuristic URL scoring, for the ensemble combiner, and for phone scoring
(whose only returning path is the digit-free early return, every other phone
input raising `NameError`; see C5/C6). -/
theorem C1_score_verdict_contract :
    (∀ url s v issues, analyze_url_heuristic url = .ok (s, v, issues) →
        0 ≤ s ∧ s ≤ 1 ∧ v = verdict_of s) ∧
    (∀ ml h v1 v2 issues,
        0 ≤ (combine_scores ml h v1 v2 issues).1 ∧
        (combine_scores ml h v1 v2 issues).1 ≤ 1 ∧
        (combine_scores ml h v1 v2 issues).2 = verdict_of (combine_scores ml h v1 v2 issues).1) ∧
    (∀ phone ml s v issues, analyze_phone phone ml = .ok (s, v, issues) →
        0 ≤ s ∧ s ≤ 1 ∧ v = verdict_of s) := by
  refine ⟨?_, ?_, ?_⟩
  · intro url s v issues h
    rcases hp : urlparse (if strStarts url "http://" ∨ strStarts url "https://" ∨
        strStarts url "ftp://" then url else "http://" ++ url) with e | parsed
    · simp only [analyze_url_heuristic, hp, Except.ok.injEq, Prod.mk.injEq] at h
      obtain ⟨rfl, rfl, rfl⟩ := h
      refine ⟨by norm_num, by norm_num, ?_⟩
      unfold verdict_of
      rw [if_neg (by norm_num), if_neg (by norm_num)]
    · rcases hb : check_brand_impersonation url
          (pyLower (if parsed.netloc ≠ "" then parsed.netloc
            else (pySplit parsed.path '/').headD "")) with e | bi
      · simp only [analyze_url_heuristic, hp, hb, bind, Except.bind] at h
        exact Except.noConfusion h
      · simp only [analyze_url_heuristic, hp, hb, bind, Except.bind, pure, Except.pure,
          Except.ok.injEq, Prod.mk.injEq] at h
        obtain ⟨rfl, rfl, rfl⟩ := h
        have hgall : ∀ i ∈ bi ++
            check_typosquatting (pyLower (if parsed.netloc ≠ "" then parsed.netloc
              else (pySplit parsed.path '/').headD "")) ++
            check_url_patterns url (pyLower (if parsed.netloc ≠ "" then parsed.netloc
              else (pySplit parsed.path '/').headD "")) parsed ++
            check_casino_patterns url (pyLower (if parsed.netloc ≠ "" then parsed.netloc
              else (pySplit parsed.path '/').headD "")), gridSev i.severity := by
          intro i hi
          simp only [List.mem_append] at hi
          rcases hi with ((hi | hi) | hi) | hi
          · exact gridSev_brand_impersonation url _ bi hb i hi
          · exact gridSev_typosquatting _ i hi
          · exact gridSev_url_patterns _ _ _ i hi
          · exact gridSev_casino _ _ i hi
        set ALL := bi ++
            check_typosquatting (pyLower (if parsed.netloc ≠ "" then parsed.netloc
              else (pySplit parsed.path '/').headD "")) ++
            check_url_patterns url (pyLower (if parsed.netloc ≠ "" then parsed.netloc
              else (pySplit parsed.path '/').headD "")) parsed ++
            check_casino_patterns url (pyLower (if parsed.netloc ≠ "" then parsed.netloc
              else (pySplit parsed.path '/').headD "")) with hALL
        by_cases hne : ALL = []
        · rw [hne]
          have h005 : heuristic_score [] = 0.05 := by norm_num [heuristic_score]
          have hr : round4 (0.05 : ℚ) = 0.05 := round4_fix _ 500 (by norm_num) (by norm_num)
          rw [h005, hr]
          refine ⟨by norm_num, by norm_num, ?_⟩
          unfold verdict_of
          rw [if_pos (by norm_num : (0.05 : ℚ) < 0.3)]
        · obtain ⟨k, N, hk1, hk5, hNle, hQ⟩ := heuristic_score_gridform ALL hgall hne
          have hkQ : (0 : ℚ) < (k : ℚ) := by exact_mod_cast lt_of_lt_of_le one_pos hk1
          have hq0 : 0 ≤ heuristic_score ALL := by rw [hQ]; positivity
          have hq1 : heuristic_score ALL ≤ 1 := by
            rw [hQ, div_le_one (by positivity)]
            calc (N : ℚ) ≤ ((400 * k : ℕ) : ℚ) := by exact_mod_cast hNle
              _ = 400 * (k : ℚ) := by push_cast; ring
          have hbd := round4_bounds _ hq0 hq1
          have h3 : round4 (heuristic_score ALL) < 0.3 ↔ heuristic_score ALL < 0.3 := by
            rw [hQ]
            exact round4_lt_iff_grid k N 6 hk1 hk5 0.3 (by norm_num)
          have h13 : round4 (heuristic_score ALL) < 0.65 ↔ heuristic_score ALL < 0.65 := by
            rw [hQ]
            exact round4_lt_iff_grid k N 13 hk1 hk5 0.65 (by norm_num)
          exact ⟨hbd.1, hbd.2, verdict_chain_round4 _ h3 h13⟩
  · intro ml h v1 v2 issues
    refine ⟨?_, ?_, rfl⟩
    · simp only [combine_scores]
      exact le_min (by norm_num) (le_max_left 0 _)
    · simp only [combine_scores]
      exact min_le_left _ _
  · intro phone ml s v issues h
    unfold analyze_phone at h
    dsimp only at h
    split at h
    · simp only [Except.ok.injEq, Prod.mk.injEq] at h
      obtain ⟨rfl, rfl, rfl⟩ := h
      refine ⟨le_refl 0, by norm_num, ?_⟩
      unfold verdict_of
      rw [if_pos (by norm_num)]
    · exact Except.noConfusion h

/-- Witness for C1: the unparseable-URL result, a concrete combiner call, and
the digit-free phone result. -/
theorem C1_score_verdict_contract_witness :
    (0 ≤ (1 : ℚ) ∧ (1 : ℚ) ≤ 1 ∧ "phishing" = verdict_of 1) ∧
    (0 ≤ (combine_scores 0 0 "safe" "safe" []).1 ∧
     (combine_scores 0 0 "safe" "safe" []).1 ≤ 1 ∧
     (combine_scores 0 0 "safe" "safe" []).2 = verdict_of (combine_scores 0 0 "safe" "safe" []).1) ∧
    (0 ≤ (0 : ℚ) ∧ (0 : ℚ) ≤ 1 ∧ "safe" = verdict_of 0) :=
  ⟨C1_score_verdict_contract.1 "http://[x" 1 "phishing"
      [{ type := "unparseable", severity := 1 }] rfl,
   C1_score_verdict_contract.2.1 0 0 "safe" "safe" [],
   C1_score_verdict_contract.2.2 "abc" none 0 "safe" [] rfl⟩

/-! ### C4 infrastructure: the DP edit distance dominates the length gap -/

theorem intDist_eq (a b : ℕ) : intDist a b = (a - b) + (b - a) := by
  unfold intDist
  rcases Nat.le_total a b with h | h
  · rw [Nat.max_eq_right h, Nat.min_eq_left h]
    omega
  · rw [Nat.max_eq_left h, Nat.min_eq_right h]
    omega

theorem intDist_succ_left (a b : ℕ) : intDist (a + 1) b ≤ intDist a b + 1 := by
  rw [intDist_eq, intDist_eq]
  omega

theorem intDist_succ_right (a b : ℕ) : intDist a (b + 1) ≤ intDist a b + 1 := by
  rw [intDist_eq, intDist_eq]
  omega

theorem intDist_succ_succ (a b : ℕ) : intDist (a + 1) (b + 1) = intDist a b := by
  rw [intDist_eq, intDist_eq]
  omega

theorem intDist_comm (a b : ℕ) : intDist a b = intDist b a := by
  rw [intDist_eq, intDist_eq]
  omega

theorem intDist_zero_right (a : ℕ) : intDist a 0 = a := by
  rw [intDist_eq]
  omega

/-- Each cell of a DP row dominates the distance between its row and column
indices. -/
theorem levInner_ge (c1 : Char) :
    ∀ (cs : List Char) (prev : List ℕ) (last i j0 : ℕ),
      prev.length = cs.length + 1 →
      (∀ idx (hh : idx < prev.length), intDist i (j0 + idx) ≤ prev.get ⟨idx, hh⟩) →
      intDist (i + 1) j0 ≤ last →
      ∀ idx (hh : idx < (levInner c1 last cs prev).length),
        intDist (i + 1) (j0 + 1 + idx) ≤ (levInner c1 last cs prev).get ⟨idx, hh⟩ := by
  intro cs
  induction cs with
  | nil =>
      intro prev last i j0 _ _ _ idx hh
      simp [levInner] at hh
  | cons c2 cs ih =>
      intro prev last i j0 hlen hprev hlast idx hh
      match prev, hlen with
      | pj :: pj1 :: rest, hlen =>
        have hpj : intDist i j0 ≤ pj := by
          have := hprev 0 (by simp)
          simpa using this
        have hpj1 : intDist i (j0 + 1) ≤ pj1 := by
          have := hprev 1 (by simp)
          simpa using this
        have hvge : intDist (i + 1) (j0 + 1) ≤
            min (pj1 + 1) (min (last + 1) (pj + (if c1 = c2 then 0 else 1))) := by
          refine le_min ?_ (le_min ?_ ?_)
          · have h1 := intDist_succ_left i (j0 + 1)
            omega
          · have h2 := intDist_succ_right (i + 1) j0
            omega
          · have h3 := intDist_succ_succ i j0
            have : intDist (i + 1) (j0 + 1) = intDist i j0 := h3
            omega
        match idx, hh with
        | 0, hh => simpa [levInner] using hvge
        | (n + 1), hh =>
            have hlen' : (pj1 :: rest).length = cs.length + 1 := by
              simpa using hlen
            have hprev' : ∀ idx2 (hh2 : idx2 < (pj1 :: rest).length),
                intDist i ((j0 + 1) + idx2) ≤ (pj1 :: rest).get ⟨idx2, hh2⟩ := by
              intro idx2 hh2
              have hblt : idx2 + 1 < (pj :: pj1 :: rest).length := by
                simp only [List.length_cons] at hh2 ⊢
                omega
              have := hprev (idx2 + 1) hblt
              have heq : j0 + (idx2 + 1) = j0 + 1 + idx2 := by omega
              rw [heq] at this
              exact this
            have hh' : n < (levInner c1
                (min (pj1 + 1) (min (last + 1) (pj + (if c1 = c2 then 0 else 1)))) cs
                (pj1 :: rest)).length := by
              have : (levInner c1 last (c2 :: cs) (pj :: pj1 :: rest)).length =
                  (levInner c1
                    (min (pj1 + 1) (min (last + 1) (pj + (if c1 = c2 then 0 else 1)))) cs
                    (pj1 :: rest)).length + 1 := by
                simp [levInner]
              omega
            have hrec := ih (pj1 :: rest)
              (min (pj1 + 1) (min (last + 1) (pj + (if c1 = c2 then 0 else 1))))
              i (j0 + 1) hlen' hprev' hvge n hh'
            have heq : j0 + 1 + (n + 1) = (j0 + 1) + 1 + n := by omega
            rw [heq]
            exact hrec

theorem levInner_length (c1 : Char) : ∀ (cs : List Char) (prev : List ℕ) (last : ℕ),
    prev.length = cs.length + 1 → (levInner c1 last cs prev).length = cs.length := by
  intro cs
  induction cs with
  | nil => intro prev last _; simp [levInner]
  | cons c2 t ih =>
      intro prev last hlen
      match prev, hlen with
      | pj :: pj1 :: rest, hlen =>
        have := ih (pj1 :: rest)
          (min (pj1 + 1) (min (last + 1) (pj + if c1 = c2 then 0 else 1)))
          (by simpa using hlen)
        simp [levInner, this]

/-- Row `i + |s1r|` of the DP dominates the index distances, given that row
`i` does. -/
theorem levRows_ge (s2 : List Char) :
    ∀ (s1r : List Char) (i : ℕ) (prev : List ℕ),
      prev.length = s2.length + 1 →
      (∀ idx (hh : idx < prev.length), intDist i idx ≤ prev.get ⟨idx, hh⟩) →
      (levRows s2 s1r i prev).length = s2.length + 1 ∧
      ∀ idx (hh : idx < (levRows s2 s1r i prev).length),
        intDist (i + s1r.length) idx ≤ (levRows s2 s1r i prev).get ⟨idx, hh⟩ := by
  intro s1r
  induction s1r with
  | nil =>
      intro i prev hlen hprev
      constructor
      · simpa [levRows] using hlen
      · intro idx hh
        have hh2 : idx < prev.length := by simpa [levRows] using hh
        have := hprev idx hh2
        simpa [levRows] using this
  | cons c1 cs ih =>
      intro i prev hlen hprev
      have hinlen : (levInner c1 (i + 1) s2 prev).length = s2.length :=
        levInner_length c1 s2 prev (i + 1) hlen
      have hlen' : ((i + 1) :: levInner c1 (i + 1) s2 prev).length = s2.length + 1 := by
        simp [hinlen]
      have hprev' : ∀ idx (hh : idx < ((i + 1) :: levInner c1 (i + 1) s2 prev).length),
          intDist (i + 1) idx ≤ ((i + 1) :: levInner c1 (i + 1) s2 prev).get ⟨idx, hh⟩ := by
        intro idx hh
        match idx, hh with
        | 0, hh =>
            simp [intDist_zero_right]
        | (n + 1), hh =>
            have hh' : n < (levInner c1 (i + 1) s2 prev).length := by
              simp only [List.length_cons] at hh
              omega
            have := levInner_ge c1 s2 prev (i + 1) i 0 hlen
              (fun idx2 hh2 => by simpa using hprev idx2 hh2)
              (by simp [intDist_zero_right]) n hh'
            have heq : 0 + 1 + n = n + 1 := by omega
            rw [heq] at this
            exact this
      have := ih (i + 1) ((i + 1) :: levInner c1 (i + 1) s2 prev) hlen' hprev'
      refine ⟨by simpa [levRows] using this.1, ?_⟩
      intro idx hh
      have hh2 : idx < (levRows s2 cs (i + 1)
          ((i + 1) :: levInner c1 (i + 1) s2 prev)).length := by
        simpa [levRows] using hh
      have hres := this.2 idx hh2
      have heq : i + 1 + cs.length = i + (c1 :: cs).length := by simp; omega
      rw [heq] at hres
      simpa [levRows] using hres

theorem lastElemD_get : ∀ (l : List ℕ) (idx : ℕ), l.length = idx + 1 →
    ∃ hh : idx < l.length, lastElemD l 0 = l.get ⟨idx, hh⟩ := by
  intro l
  induction l with
  | nil => intro idx h; simp at h
  | cons a t ih =>
      intro idx h
      cases t with
      | nil =>
          have : idx = 0 := by simpa using h
          subst this
          exact ⟨by simp, rfl⟩
      | cons b t2 =>
          match idx, h with
          | 0, h => simp at h
          | (k + 1), h =>
              have hlen : (b :: t2).length = k + 1 := by simpa using h
              obtain ⟨hh, heq⟩ := ih k hlen
              refine ⟨by simp only [List.length_cons] at h ⊢; omega, ?_⟩
              rw [show lastElemD (a :: b :: t2) 0 = lastElemD (b :: t2) 0 from rfl, heq]
              rfl

theorem levBase_ge (s1 s2 : List Char) : intDist s1.length s2.length ≤ levBase s1 s2 := by
  unfold levBase
  split
  · next h =>
      rw [h, intDist_zero_right]
  · have init : ∀ idx (hh : idx < (List.range (s2.length + 1)).length),
        intDist 0 idx ≤ (List.range (s2.length + 1)).get ⟨idx, hh⟩ := by
      intro idx hh
      rw [List.get_range]
      rw [intDist_eq]
      omega
    obtain ⟨hlen, hge⟩ := levRows_ge s2 s1 0 (List.range (s2.length + 1))
      (by simp) init
    obtain ⟨hh, heq⟩ := lastElemD_get _ s2.length hlen
    rw [heq]
    have := hge s2.length hh
    rw [show (0 : ℕ) + s1.length = s1.length from by omega] at this
    exact this

/-- The implemented `_levenshtein_distance` is at least the length gap of its
arguments, so the `abs(len - len) ≤ 3` pre-filter never rejects a pair at
distance ≤ 2. -/
theorem _levenshtein_distance_ge (s1 s2 : String) :
    intDist s1.length s2.length ≤ _levenshtein_distance s1 s2 := by
  have hlen1 : s1.toList.length = s1.length := rfl
  have hlen2 : s2.toList.length = s2.length := rfl
  unfold _levenshtein_distance
  split
  · have := levBase_ge s2.toList s1.toList
    rw [hlen1, hlen2, intDist_comm] at this
    exact this
  · have := levBase_ge s1.toList s2.toList
    rw [hlen1, hlen2] at this
    exact this


/-- The length pre-filter is subsumed by `distance ≤ 2`. -/
theorem typoHit_iff_spec (dn o : String) : typoHit dn o ↔ typoHitSpec dn o := by
  unfold typoHit typoHitSpec
  constructor
  · rintro ⟨_, h⟩
    exact h
  · rintro ⟨h1, h2, h3⟩
    have hge := _levenshtein_distance_ge dn (canonLabel o)
    exact ⟨by omega, h1, h2, h3⟩

/-- Anything the inner loop returns (starting from `none`) records one of the
qualifying canonical domains, at its exact computed distance. -/
theorem typoLoop_stored (dn b : String) :
    ∀ (offs : List String) (best : Option Issue) (m : Issue),
      typoLoop dn b offs best = some m →
      (∃ o ∈ offs, typoHit dn o ∧
        m = mkTypoIssue b dn o (_levenshtein_distance dn (canonLabel o))) ∨
      best = some m := by
  intro offs
  induction offs with
  | nil => exact fun best m h => Or.inr h
  | cons off rest ih =>
      intro best m h
      unfold typoLoop at h
      dsimp only at h
      split at h
      · rcases ih best m h with ⟨o, ho, hh⟩ | h'
        · exact Or.inl ⟨o, List.mem_cons_of_mem _ ho, hh⟩
        · exact Or.inr h'
      · next hpre =>
          split at h
          · next hcond =>
              rcases ih _ m h with ⟨o, ho, hh⟩ | h'
              · exact Or.inl ⟨o, List.mem_cons_of_mem _ ho, hh⟩
              · refine Or.inl ⟨off, List.mem_cons_self .., ?_, (Option.some.inj h').symm⟩
                exact ⟨Nat.le_of_not_lt hpre, hcond.1, hcond.2.1, hcond.2.2.1⟩
          · rcases ih best m h with ⟨o, ho, hh⟩ | h'
            · exact Or.inl ⟨o, List.mem_cons_of_mem _ ho, hh⟩
            · exact Or.inr h'

/-- The inner loop finds something iff some official domain qualifies. -/
theorem typoLoop_isSome_iff (dn b : String) :
    ∀ (offs : List String) (best : Option Issue),
      (typoLoop dn b offs best).isSome ↔ best.isSome ∨ ∃ o ∈ offs, typoHit dn o := by
  intro offs
  induction offs with
  | nil => intro best; simp [typoLoop]
  | cons off rest ih =>
      intro best
      unfold typoLoop
      dsimp only
      split
      · next hpre =>
          rw [ih best]
          constructor
          · rintro (h | ⟨o, ho, hh⟩)
            · exact Or.inl h
            · exact Or.inr ⟨o, List.mem_cons_of_mem _ ho, hh⟩
          · rintro (h | ⟨o, ho, hh⟩)
            · exact Or.inl h
            · rcases List.mem_cons.1 ho with rfl | ho'
              · exact absurd hh.1 (by omega)
              · exact Or.inr ⟨o, ho', hh⟩
      · next hpre =>
          split
          · next hcond =>
              rw [ih _]
              constructor
              · intro _
                exact Or.inr ⟨off, List.mem_cons_self ..,
                  Nat.le_of_not_lt hpre, hcond.1, hcond.2.1, hcond.2.2.1⟩
              · intro _
                exact Or.inl (by simp)
          · next hcond =>
              rw [ih best]
              constructor
              · rintro (h | ⟨o, ho, hh⟩)
                · exact Or.inl h
                · exact Or.inr ⟨o, List.mem_cons_of_mem _ ho, hh⟩
              · rintro (h | ⟨o, ho, hh⟩)
                · exact Or.inl h
                · rcases List.mem_cons.1 ho with rfl | ho'
                  · left
                    cases hbest : best with
                    | some bm => simp
                    | none =>
                        exfalso
                        rw [hbest] at hcond
                        exact hcond ⟨hh.2.1, hh.2.2.1, hh.2.2.2, by
                          have := hh.2.2.1
                          simp only [bestDist]
                          omega⟩
                  · exact Or.inr ⟨o, ho', hh⟩

/-- The returned distance is minimal among qualifying officials. -/
theorem typoLoop_min (dn b : String) :
    ∀ (offs : List String) (best : Option Issue) (m : Issue),
      typoLoop dn b offs best = some m →
      m.distance ≤ bestDist best ∧
      ∀ o ∈ offs, typoHit dn o →
        m.distance ≤ _levenshtein_distance dn (canonLabel o) := by
  intro offs
  induction offs with
  | nil =>
      intro best m h
      refine ⟨?_, by intro o ho; simp at ho⟩
      cases best with
      | none => simp [typoLoop] at h
      | some bm =>
          have : bm = m := by simpa [typoLoop] using h
          subst this
          exact le_refl _
  | cons off rest ih =>
      intro best m h
      unfold typoLoop at h
      dsimp only at h
      split at h
      · next hpre =>
          obtain ⟨h1, h2⟩ := ih best m h
          refine ⟨h1, ?_⟩
          intro o ho hhit
          rcases List.mem_cons.1 ho with rfl | ho'
          · exact absurd hhit.1 (by omega)
          · exact h2 o ho' hhit
      · next hpre =>
          split at h
          · next hcond =>
              obtain ⟨h1, h2⟩ := ih _ m h
              have hd : m.distance ≤ _levenshtein_distance dn (canonLabel off) := by
                simpa [bestDist, mkTypoIssue] using h1
              refine ⟨le_trans hd (le_of_lt hcond.2.2.2), ?_⟩
              intro o ho hhit
              rcases List.mem_cons.1 ho with rfl | ho'
              · exact hd
              · exact h2 o ho' hhit
          · next hcond =>
              obtain ⟨h1, h2⟩ := ih best m h
              refine ⟨h1, ?_⟩
              intro o ho hhit
              rcases List.mem_cons.1 ho with rfl | ho'
              · have hnl : ¬ (_levenshtein_distance dn (canonLabel o) < bestDist best) := by
                  intro hlt
                  exact hcond ⟨hhit.2.1, hhit.2.2.1, hhit.2.2.2, hlt⟩
                exact le_trans h1 (Nat.le_of_not_lt hnl)
              · exact h2 o ho' hhit

/-- Everything the loop stores carries its brand. -/
theorem typoLoop_brand (dn b : String) (offs : List String) (m : Issue)
    (h : typoLoop dn b offs none = some m) : m.brand = b := by
  rcases typoLoop_stored dn b offs none m h with ⟨o, _, _, rfl⟩ | h'
  · simp [mkTypoIssue]
  · exact Option.noConfusion h'

/-- Membership in `check_typosquatting`, entrywise. -/
theorem mem_check_typosquatting (domain : String) (i : Issue) :
    i ∈ check_typosquatting domain ↔
      ∃ p ∈ BRAND_DOMAINS, _extract_base_domain (_normalize_domain domain) ∉ p.2 ∧
        typoLoop (domainLabel domain) p.1 p.2 none = some i := by
  unfold check_typosquatting domainLabel
  constructor
  · intro hi
    obtain ⟨p, hp, hip⟩ := List.mem_flatMap.1 hi
    revert hip
    split
    · intro hip; simp at hip
    · next hbase => exact fun hip => ⟨p, hp, hbase, Option.mem_toList.1 hip⟩
  · rintro ⟨p, hp, hbase, hsome⟩
    refine List.mem_flatMap.2 ⟨p, hp, ?_⟩
    rw [if_neg hbase]
    exact Option.mem_toList.2 (Option.mem_def.2 hsome)

theorem nodup_key_unique {β : Type} :
    ∀ (l : List (String × β)), (l.map Prod.fst).Nodup →
      ∀ b o1 o2, (b, o1) ∈ l → (b, o2) ∈ l → o1 = o2 := by
  intro l
  induction l with
  | nil => intro _ b o1 o2 h1; simp at h1
  | cons p t ih =>
      intro hnd b o1 o2 h1 h2
      simp only [List.map_cons, List.nodup_cons] at hnd
      rcases List.mem_cons.1 h1 with h1' | h1' <;> rcases List.mem_cons.1 h2 with h2' | h2'
      · have heq := h2'.trans h1'.symm
        exact (Prod.ext_iff.1 heq).2.symm
      · exfalso
        apply hnd.1
        rw [← h1']
        exact List.mem_map.2 ⟨(b, o2), h2', rfl⟩
      · exfalso
        apply hnd.1
        rw [← h2']
        exact List.mem_map.2 ⟨(b, o1), h1', rfl⟩
      · exact ih hnd.2 b o1 o2 h1' h2'

/-- The registry's brand keys are pairwise distinct. -/
theorem registry_keys_nodup : (BRAND_DOMAINS.map Prod.fst).Nodup := by decide

/-- Everything `brandLoopBody` emits carries its brand. -/
theorem brandLoopBody_brand (brand : String) (offs : List String) (dl base pl : String) :
    ∀ i ∈ brandLoopBody brand offs dl base pl, i.brand = brand := by
  intro i hi
  unfold brandLoopBody at hi
  split at hi
  · simp at hi
  · simp only [List.mem_append] at hi
    rcases hi with (h | h) | h
    · exact (mem_issueIf h) ▸ rfl
    · revert h
      split
      · intro h
        obtain ⟨_, _, rfl⟩ := List.mem_map.1 h
        rfl
      · intro h; simp at h
    · exact (mem_issueIf h) ▸ rfl

/-- `check_typosquatting` reports at most one issue per brand: entries with
other keys store issues carrying their own brand, and one entry stores at
most one issue. -/
theorem typo_countP_le_one (dn base brand : String) :
    ∀ (l : List (String × List String)), (l.map Prod.fst).Nodup →
      ((l.flatMap fun p => if base ∈ p.2 then [] else (typoLoop dn p.1 p.2 none).toList).countP
        (fun i => i.brand == brand)) ≤ 1 := by
  intro l
  induction l with
  | nil => intro _; simp
  | cons p t ih =>
      intro hnd
      simp only [List.map_cons, List.nodup_cons] at hnd
      rw [List.flatMap_cons, List.countP_append]
      by_cases hpb : p.1 = brand
      · have hrest : ((t.flatMap fun q => if base ∈ q.2 then []
            else (typoLoop dn q.1 q.2 none).toList).countP (fun i => i.brand == brand)) = 0 := by
          rw [List.countP_eq_zero]
          intro a ha
          obtain ⟨q, hq, haq⟩ := List.mem_flatMap.1 ha
          revert haq
          split
          · intro haq; simp at haq
          · intro haq
            have hqb := typoLoop_brand dn q.1 q.2 a (Option.mem_toList.1 haq)
            simp only [beq_iff_eq, hqb]
            intro hcon
            exact hnd.1 (hpb ▸ hcon ▸ List.mem_map.2 ⟨q, hq, rfl⟩)
        have hchunk : ((if base ∈ p.2 then [] else (typoLoop dn p.1 p.2 none).toList).countP
            (fun i => i.brand == brand)) ≤ 1 := by
          refine le_trans (List.countP_le_length _) ?_
          split
          · simp
          · cases typoLoop dn p.1 p.2 none <;> simp
        omega
      · have hchunk : ((if base ∈ p.2 then [] else (typoLoop dn p.1 p.2 none).toList).countP
            (fun i => i.brand == brand)) = 0 := by
          rw [List.countP_eq_zero]
          intro a ha
          revert ha
          split
          · intro ha; simp at ha
          · intro ha
            have hqb := typoLoop_brand dn p.1 p.2 a (Option.mem_toList.1 ha)
            simp only [beq_iff_eq, hqb]
            exact hpb
        have := ih hnd.2
        omega

/-- C4 amended: with the carve-out that the domain's registrable base is not
itself one of the brand's canonical domains, the typosquat detector reports
an issue for a brand exactly when some canonical label of that brand is
within Levenshtein distance 1–2 of the domain's primary label and has length
≥ 4.  The reported issue has severity exactly 0.95 at distance 1 and 0.80 at
distance 2, its distance is minimal over the qualifying canonical labels, at
most one issue is reported per brand, and a domain equal to one of its own
brand's canonical domains yields neither a typosquatting nor a
brand-impersonation issue for that brand. -/
theorem C4_typosquat_detector (domain brand : String) (offs : List String)
    (hb : (brand, offs) ∈ BRAND_DOMAINS) :
    ((∃ i ∈ check_typosquatting domain, i.brand = brand) ↔
      (_extract_base_domain (_normalize_domain domain) ∉ offs ∧
        ∃ o ∈ offs, typoHitSpec (domainLabel domain) o)) ∧
    (∀ i ∈ check_typosquatting domain, i.brand = brand →
      (((i.distance = 1 ∧ i.severity = 0.95) ∨ (i.distance = 2 ∧ i.severity = 0.8)) ∧
        ∀ o ∈ offs, typoHitSpec (domainLabel domain) o →
          i.distance ≤ _levenshtein_distance (domainLabel domain) (canonLabel o))) ∧
    ((check_typosquatting domain).countP (fun i => i.brand == brand) ≤ 1) ∧
    (_normalize_domain domain ∈ offs →
      (∀ i ∈ check_typosquatting domain, i.brand ≠ brand) ∧
      (∀ url res, check_brand_impersonation url domain = .ok res →
        ∀ i ∈ res, i.brand ≠ brand)) := by
  have hchar : ∀ i ∈ check_typosquatting domain, i.brand = brand →
      _extract_base_domain (_normalize_domain domain) ∉ offs ∧
      ∃ o ∈ offs, typoHit (domainLabel domain) o ∧
        i = mkTypoIssue brand (domainLabel domain) o
          (_levenshtein_distance (domainLabel domain) (canonLabel o)) := by
    intro i hi hib
    obtain ⟨p, hp, hbase, hsome⟩ := (mem_check_typosquatting domain i).1 hi
    rcases typoLoop_stored _ _ _ _ _ hsome with ⟨o, ho, hhit, rfl⟩ | h'
    · have hp1 : p.1 = brand := by simpa [mkTypoIssue] using hib
      have hp2 : p.2 = offs := by
        refine nodup_key_unique BRAND_DOMAINS registry_keys_nodup brand p.2 offs ?_ hb
        rw [← hp1]
        exact hp
      rw [hp1]
      exact ⟨hp2 ▸ hbase, o, hp2 ▸ ho, hhit, rfl⟩
    · exact Option.noConfusion h'
  refine ⟨⟨?_, ?_⟩, ?_, ?_, ?_⟩
  · rintro ⟨i, hi, hib⟩
    obtain ⟨hbase, o, ho, hhit, _⟩ := hchar i hi hib
    exact ⟨hbase, o, ho, (typoHit_iff_spec _ _).1 hhit⟩
  · rintro ⟨hbase, o, ho, hhit⟩
    have hits : typoHit (domainLabel domain) o := (typoHit_iff_spec _ _).2 hhit
    have hsome := (typoLoop_isSome_iff (domainLabel domain) brand offs none).2
      (Or.inr ⟨o, ho, hits⟩)
    obtain ⟨m, hm⟩ := Option.isSome_iff_exists.1 hsome
    refine ⟨m, (mem_check_typosquatting domain m).2 ⟨(brand, offs), hb, hbase, hm⟩, ?_⟩
    exact typoLoop_brand _ _ _ _ hm
  · intro i hi hib
    obtain ⟨hbase, o, ho, hhit, hieq⟩ := hchar i hi hib
    obtain ⟨p, hp, hbase', hsome⟩ := (mem_check_typosquatting domain i).1 hi
    have hp1 : p.1 = brand := by
      have := typoLoop_brand _ _ _ _ hsome
      rw [← this, hib]
    have hp2 : p.2 = offs := by
      refine nodup_key_unique BRAND_DOMAINS registry_keys_nodup brand p.2 offs ?_ hb
      rw [← hp1]
      exact hp
    constructor
    · have hd1 : i.distance = _levenshtein_distance (domainLabel domain) (canonLabel o) := by
        rw [hieq]
        rfl
      have h0 := hhit.2.1
      have h2 := hhit.2.2.1
      have hd12 : i.distance = 1 ∨ i.distance = 2 := by omega
      rcases hd12 with hd | hd
      · refine Or.inl ⟨hd, ?_⟩
        rw [hieq]
        simp only [mkTypoIssue]
        rw [if_pos (by rw [← hd1, hd])]
      · refine Or.inr ⟨hd, ?_⟩
        rw [hieq]
        simp only [mkTypoIssue]
        rw [if_neg (by rw [← hd1, hd]; omega)]
    · intro o2 ho2 hhit2
      have := (typoLoop_min _ _ p.2 none i hsome).2 o2 (hp2 ▸ ho2)
        ((typoHit_iff_spec _ _).2 hhit2)
      exact this
  · have := typo_countP_le_one (domainLabel domain)
      (_extract_base_domain (_normalize_domain domain)) brand BRAND_DOMAINS
      registry_keys_nodup
    exact this
  · intro hnorm
    have hbase : _extract_base_domain (_normalize_domain domain) ∈ offs :=
      registry_base_closed (brand, offs) hb _ hnorm
    constructor
    · intro i hi hib
      obtain ⟨hbase', _⟩ := hchar i hi hib
      exact hbase' hbase
    · intro url res hres i hi hib
      rcases hok : urlparse (pyLower url) with e | pu
      · rw [check_brand_impersonation, hok] at hres
        exact Except.noConfusion hres
      · rw [check_brand_impersonation, hok] at hres
        obtain rfl := Except.ok.inj hres
        obtain ⟨p, hp, hip⟩ := List.mem_flatMap.1 hi
        have hp1 : p.1 = brand := by
          rw [← brandLoopBody_brand p.1 p.2 _ _ _ i hip, hib]
        have hp2 : p.2 = offs := by
          refine nodup_key_unique BRAND_DOMAINS registry_keys_nodup brand p.2 offs ?_ hb
          rw [← hp1]
          exact hp
        rw [brandLoopBody, if_pos (Or.inr (hp2 ▸ hnorm))] at hip
        simp at hip

/-- C4 as stated is false on the code: for domain `apple.com` the canonical
label `appleid` (of apple's official `appleid.apple.com`) is at Levenshtein
distance 2 from the primary label `apple` and has length ≥ 4 — the claim's
trigger condition for a typosquatting issue for brand `apple` — yet no
typosquatting issue at all is reported, because `apple.com` is one of the
brand's own canonical domains and the brand is skipped. -/
theorem C4_counterexample :
    check_typosquatting "apple.com" = [] ∧
    ("apple", ["apple.com", "icloud.com", "appleid.apple.com"]) ∈ BRAND_DOMAINS ∧
    "appleid.apple.com" ∈ ["apple.com", "icloud.com", "appleid.apple.com"] ∧
    domainLabel "apple.com" = "apple" ∧
    canonLabel "appleid.apple.com" = "appleid" ∧
    0 < _levenshtein_distance "apple" "appleid" ∧
    _levenshtein_distance "apple" "appleid" ≤ 2 ∧
    4 ≤ "appleid".length := by
  refine ⟨by decide, by decide, by decide, by decide, by decide, by decide, by decide, by decide⟩

/-- Witness for C4 at a concrete typosquat (`gooogle.com` vs `google.com`). -/
theorem C4_typosquat_detector_witness :
    ∃ i ∈ check_typosquatting "gooogle.com", i.brand = "google" :=
  (C4_typosquat_detector "gooogle.com" "google"
      ["google.com", "google.kz", "google.ru", "googleapis.com", "gstatic.com"]
      (by decide)).1.mpr
    ⟨by decide, "google.com", by decide, by decide, by decide, by decide⟩

end PhishGuard













